import Mathlib

/-!
Verification development for the astrology-bot message pipeline.

The Lean definitions below are shallow embeddings of the Python sources:
`app/services/queue_service.py`, `app/workers/astrology_worker.py`,
`app/services/telegram_service.py`, `app/services/memory_service.py`,
`app/agents/rudie_agent.py` and `main.py`.  External collaborators
(RabbitMQ delivery, the Ollama model, HTTP services, Telegram transport)
are modelled as oracle parameters; everything the Python code itself
computes is translated directly.
-/

namespace AstroBot

/-! ## Basic character and string utilities shared by the embeddings -/

/-- Python `\s` character class: space, tab, newline, carriage return,
form feed, vertical tab (the ASCII whitespace matched by `re` and by
`str.strip`). -/
def pyWs (c : Char) : Bool :=
  c = ' ' || c = '\t' || c = '\n' || c = '\r' || c = Char.ofNat 11 || c = Char.ofNat 12

/-- Strip whitespace from both ends, Python `str.strip()`. -/
def pstrip (l : List Char) : List Char :=
  ((l.dropWhile pyWs).reverse.dropWhile pyWs).reverse

/-- String-level `str.strip()`. -/
def pstripS (s : String) : String :=
  String.mk (pstrip s.data)

/-- Lowercasing a character as Python `str.lower()` does on ASCII input. -/
def lowerC (c : Char) : Char := c.toLower

/-- Lowercase a character list (`str.lower()`). -/
def lowerL (l : List Char) : List Char := l.map lowerC

/-- Case-insensitive character comparison (the effect of `re.IGNORECASE`). -/
def ciEq (a b : Char) : Bool := lowerC a = lowerC b

/-- Convenience: the characters of a string literal. -/
def strL (s : String) : List Char := s.data

/-- Substring test, Python `needle in haystack`. -/
def pyContains (haystack needle : List Char) : Bool :=
  decide (needle <:+: haystack)

/-! ## Durable queue consumer (`queue_service.py`, `start_consumer`)

A delivered RabbitMQ message is handled inside
`async with message.process():` whose aio-pika contract is: the message
is acknowledged when the `with` body exits normally and is returned to
the queue (redelivered) only when an exception escapes the body.  The
body of `start_consumer` parses the payload and calls the handler inside
its own `try`/`except Exception` that merely logs, so we model the body
as an `Except` computation built from the two fallible steps. -/

/-- Outcome of one delivery at the broker: acknowledged (removed) or
returned for redelivery. -/
inductive ConsumeAck
  | acked
  | requeued
deriving DecidableEq, Repr

/-- Exception-propagating result of `json.loads` followed by
`await handler(request_data)` (either step may raise). -/
def consumerAttempt (parseRaises handlerRaises : Bool) : Except Unit Unit :=
  if parseRaises then Except.error ()
  else if handlerRaises then Except.error ()
  else Except.ok ()

/-- Body of `async with message.process():` in `start_consumer`: the
attempt is wrapped in `try ... except Exception as e: logger.error(...)`,
so any exception from the attempt is swallowed and the body completes
normally. -/
def consumerBody (parseRaises handlerRaises : Bool) : Except Unit Unit :=
  match consumerAttempt parseRaises handlerRaises with
  | Except.ok v => Except.ok v
  | Except.error _ => Except.ok ()

/-- Semantics of `message.process()` (aio-pika): acknowledge on normal
exit of the body, requeue only when an exception escapes the body. -/
def messageProcess (body : Except Unit Unit) : ConsumeAck :=
  match body with
  | Except.ok _ => ConsumeAck.acked
  | Except.error _ => ConsumeAck.requeued

/-- One delivery handled by `start_consumer`. -/
def consumeStep (parseRaises handlerRaises : Bool) : ConsumeAck :=
  messageProcess (consumerBody parseRaises handlerRaises)

/-! ## Work items and the request worker (`astrology_worker.py`)

A queue payload is a JSON object; the worker only tests key presence
(`field not in request_data`), so each field is modelled as an `Option`.
`user_context` is itself an object with four required keys. -/

/-- Nested `user_context` object of a work item. -/
structure UserContext where
  name : Option String
  date_of_birth : Option String
  time_of_birth : Option String
  place_of_birth : Option String
  memories : Option String := none
deriving DecidableEq, Repr

/-- Top-level work item, as decoded from the queue payload. -/
structure RequestData where
  request_id : Option String
  user_id : Option Nat
  chat_id : Option Nat
  message : Option String
  user_context : Option UserContext
deriving DecidableEq, Repr

/-- Key-presence test on the top level, Python `field in request_data`. -/
def hasField (r : RequestData) (field : String) : Bool :=
  if field = "user_id" then r.user_id.isSome
  else if field = "chat_id" then r.chat_id.isSome
  else if field = "message" then r.message.isSome
  else if field = "user_context" then r.user_context.isSome
  else if field = "request_id" then r.request_id.isSome
  else false

/-- The `required_fields` list of `process_request` (note: it does not
include `request_id`, which is read later with a `'unknown'` default). -/
def required_fields : List String :=
  ["user_id", "chat_id", "message", "user_context"]

/-- The comprehension `[field for field in required_fields if field not in
request_data]`. -/
def missing_fields (r : RequestData) : List String :=
  required_fields.filter (fun f => ! hasField r f)

/-- Key-presence test inside `user_context`. -/
def hasCtxField (uc : UserContext) (field : String) : Bool :=
  if field = "name" then uc.name.isSome
  else if field = "date_of_birth" then uc.date_of_birth.isSome
  else if field = "time_of_birth" then uc.time_of_birth.isSome
  else if field = "place_of_birth" then uc.place_of_birth.isSome
  else false

/-- The `required_context` list of `process_request`. -/
def required_context : List String :=
  ["name", "date_of_birth", "time_of_birth", "place_of_birth"]

/-- The comprehension computing `missing_context`. -/
def missing_context (uc : UserContext) : List String :=
  required_context.filter (fun f => ! hasCtxField uc f)

/-- Default used by `request_data.get('user_context', {})`: an empty
dict, i.e. every key absent. -/
def emptyContext : UserContext :=
  { name := none, date_of_birth := none, time_of_birth := none
    place_of_birth := none, memories := none }

/-- Filter on line 51 of the worker:
`'test' in text.lower() or 'batch_test' in text.lower()` (the message is
a string in the model, so the `isinstance` guard holds). -/
def isTestMessage (text : String) : Bool :=
  pyContains (lowerL text.data) (strL "test")
    || pyContains (lowerL text.data) (strL "batch_test")

/-- Python value returned by `memory_service.get_memories`, as far as the
worker inspects it: `None`, a non-dict value, or a dict with truthiness
(non-emptiness) and an optional `"data"` entry. -/
inductive MemVal
  | vNone
  | vNonDict
  | vDict (nonempty : Bool) (data : Option String)
deriving DecidableEq, Repr

/-- The worker's extraction
`if memories_result and isinstance(memories_result, dict):
memory_data = memories_result.get("data", "")` with `""` in every other
case (including the `except` branch handled by the caller). -/
def memoryDataOf (v : MemVal) : String :=
  match v with
  | MemVal.vNone => ""
  | MemVal.vNonDict => ""
  | MemVal.vDict nonempty data =>
      if nonempty then data.getD "" else ""

/-- Observable actions of one `process_request` run.  `typingStart` is
the creation of the `keep_typing` sibling task; `stopSet` is the
`stop_typing.set()` transition from unset to set (setting an already-set
`asyncio.Event` is a no-op and produces no event). -/
inductive Ev
  | typingStart
  | stopSet
  | memFetch
  | generate (memories : String)
  | sendMsg (text : String)
  | saveDb (role text : String)
  | saveRedis (role text : String)
  | addMemoryTask
deriving DecidableEq, Repr

/-- Oracle for the worker's external calls: the memory fetch may raise
or return a value, the agent call may raise or return a string, and the
reply delivery may raise (`send_message` re-raises after its internal
apology attempt). -/
structure WOracle where
  memResult : Except Unit MemVal
  genResult : Except Unit String
  sendOk : Bool
deriving Repr

/-- Apology sent on the worker's error path. -/
def workerApology : String :=
  "Sorry, I had trouble reading the stars for you. Please try again! 🌿"

/-- Cleanup applied by the worker to the agent reply
(`re.sub(r'<think>.*?</think>\s*', '', response, flags=re.DOTALL)`
followed by `.strip()`); defined later, forward-declared here as the
composition used by `process_request`. -/
def countEv (e : Ev) (l : List Ev) : Nat :=
  l.count e

/-! ## A small scanning-substitution engine

`re.sub(pattern, repl, text)` scans left to right; at each position it
either matches (consuming the match, emitting the replacement, and
continuing after it) or advances one character.  `rescanF` is that loop,
fuelled by the input length (every matcher below consumes at least one
character when it fires, so the fuel never runs out on real input). -/

/-- One substitution pass: `m` returns `(replacement, remainder)` on a
match at the current position. -/
def rescanF (m : List Char → Option (List Char × List Char)) :
    Nat → List Char → List Char
  | 0, l => l
  | _ + 1, [] => []
  | fuel + 1, c :: cs =>
    match m (c :: cs) with
    | some (rep, rem) => rep ++ rescanF m fuel rem
    | none => c :: rescanF m fuel cs

/-- Run a substitution pass with adequate fuel. -/
def rescan (m : List Char → Option (List Char × List Char))
    (l : List Char) : List Char :=
  rescanF m l.length l

/-- Consume a literal, case-insensitively (`re.IGNORECASE`). -/
def eatCI : List Char → List Char → Option (List Char)
  | [], l => some l
  | _ :: _, [] => none
  | p :: ps, c :: cs => if ciEq p c then eatCI ps cs else none

/-- Consume a literal, case-sensitively. -/
def eatCS : List Char → List Char → Option (List Char)
  | [], l => some l
  | _ :: _, [] => none
  | p :: ps, c :: cs => if p = c then eatCS ps cs else none

/-- Drop a (possibly empty) whitespace run, the greedy `\s*`. -/
def dropWs (l : List Char) : List Char := l.dropWhile pyWs

/-- Require at least one whitespace character then eat the run, `\s+`. -/
def ws1 : List Char → Option (List Char)
  | [] => none
  | c :: cs => if pyWs c then some (cs.dropWhile pyWs) else none

/-- Optional single character, the greedy `x?`. -/
def optC (ch : Char) : List Char → List Char
  | [] => []
  | c :: cs => if c = ch then cs else c :: cs

/-- Apostrophe character (U+0027). -/
def apoC : Char := Char.ofNat 39

/-- Backtick character (U+0060). -/
def btC : Char := Char.ofNat 96

/-- Scan forward for the first case-insensitive occurrence of `tag`,
returning the input after it (the lazy `.*?` + literal search). -/
def findTagCI (tag : List Char) : List Char → Option (List Char)
  | [] => none
  | c :: cs =>
    match eatCI tag (c :: cs) with
    | some rest => some rest
    | none => findTagCI tag cs

/-- Scan forward for the first case-sensitive occurrence of `tag`. -/
def findTagCS (tag : List Char) : List Char → Option (List Char)
  | [] => none
  | c :: cs =>
    match eatCS tag (c :: cs) with
    | some rest => some rest
    | none => findTagCS tag cs

/-- Matcher for `<think>.*?</think>\s*` with `re.DOTALL | re.IGNORECASE`
(`rudie_agent._extract_final_response`): an opening tag, the nearest
closing tag, then the trailing whitespace run; the match is deleted. -/
def matchThinkCI (l : List Char) : Option (List Char × List Char) :=
  match eatCI (strL "<think>") l with
  | some afterOpen =>
    match findTagCI (strL "</think>") afterOpen with
    | some afterClose => some ([], dropWs afterClose)
    | none => none
  | none => none

/-- Matcher for `<thinking>.*?</thinking>\s*` (same flags). -/
def matchThinkingCI (l : List Char) : Option (List Char × List Char) :=
  match eatCI (strL "<thinking>") l with
  | some afterOpen =>
    match findTagCI (strL "</thinking>") afterOpen with
    | some afterClose => some ([], dropWs afterClose)
    | none => none
  | none => none

/-- Matcher for `<think>.*?</think>\s*` with `re.DOTALL` only, the
worker's defence-in-depth cleanup (`astrology_worker.py` line 90). -/
def matchThinkCS (l : List Char) : Option (List Char × List Char) :=
  match eatCS (strL "<think>") l with
  | some afterOpen =>
    match findTagCS (strL "</think>") afterOpen with
    | some afterClose => some ([], dropWs afterClose)
    | none => none
  | none => none

/-- Worker-side cleanup of the agent reply:
`re.sub(r'<think>.*?</think>\s*', '', response, flags=re.DOTALL)`
followed by `response.strip()`. -/
def workerCleanL (l : List Char) : List Char :=
  pstrip (rescan matchThinkCS l)

/-- String-level worker cleanup. -/
def workerClean (s : String) : String :=
  String.mk (workerCleanL s.data)

/-! ## The worker run (`process_request`)

The run is modelled as the list of observable actions it performs, with
the oracle fixing the outcome of each external call.  The two `return`
statements for malformed items and the test filter produce the empty
trace; afterwards the typing task is started and stopped exactly as the
`try`/`except`/`finally` structure dictates. -/

/-- Trace of `process_request` on item `r` under oracle `o`. -/
def processRequest (r : RequestData) (o : WOracle) : List Ev :=
  if missing_fields r ≠ [] then []
  else
    let uc := r.user_context.getD emptyContext
    if missing_context uc ≠ [] then []
    else
      let text := r.message.getD ""
      if isTestMessage text then []
      else
        -- stop_typing = Event(); typing_task = create_task(keep_typing ...)
        let memory_data :=
          match o.memResult with
          | Except.ok v => memoryDataOf v
          | Except.error _ => ""        -- except: continue without memories
        match o.genResult with
        | Except.error _ =>
          -- except branch: stop_typing.set(); await; best-effort apology;
          -- finally: stop_typing.set() is a no-op (already set)
          [Ev.typingStart, Ev.memFetch, Ev.generate memory_data,
           Ev.stopSet, Ev.sendMsg workerApology]
        | Except.ok resp =>
          let resp' := workerClean resp
          if o.sendOk then
            [Ev.typingStart, Ev.memFetch, Ev.generate memory_data,
             Ev.stopSet, Ev.sendMsg resp',
             Ev.saveDb "user" text, Ev.saveDb "bot" resp',
             Ev.saveRedis "user" text, Ev.saveRedis "bot" resp',
             Ev.addMemoryTask]
          else
            -- send_message raised after stop: except branch sends the
            -- apology; stop_typing.set() there and in finally are no-ops
            [Ev.typingStart, Ev.memFetch, Ev.generate memory_data,
             Ev.stopSet, Ev.sendMsg resp', Ev.sendMsg workerApology]

/-- Emission loop of `telegram_service.keep_typing`: while the stop event
is unset, send one typing action and wait for the event with a 4 s
timeout.  `isSet i` is the event state observed at the `i`-th check of
the loop condition; the result is `some emissions` when the loop exits
and `none` when the fuel is exhausted before it observes the event. -/
def keepTypingLoop (isSet : Nat → Bool) : Nat → Nat → Option Nat
  | 0, _ => none
  | fuel + 1, i => if isSet i then some i else keepTypingLoop isSet fuel (i + 1)

/-! ## The bounded recent-window cache (`save_chat_to_redis`)

The Redis list is modelled as the list of stored strings.  The source
re-reads the whole list, regroups it into `(user, bot)` pairs (dropping a
dangling element), appends or completes a pair, truncates to the last
`redis_chat_history_limit` pairs, then rewrites the list — pushing the
bot half of a pair only when it is non-empty. -/

/-- The regrouping loop `for i in range(0, len(history), 2): if i + 1 <
len(history): pairs.append((history[i], history[i+1]))`. -/
def pairsOf : List String → List (String × String)
  | a :: b :: rest => (a, b) :: pairsOf rest
  | _ => []

/-- Python slice `pairs[-limit:]` (note `[-0:]` is the whole list). -/
def takeLastPy (limit : Nat) (l : List (String × String)) :
    List (String × String) :=
  if limit = 0 then l else l.drop (l.length - limit)

/-- Rebuild step: `rpush(key, user_msg); if bot_msg: rpush(key, bot_msg)`. -/
def pushPair (p : String × String) : List String :=
  if p.2 = "" then [p.1] else [p.1, p.2]

/-- One call to `save_chat_to_redis` acting on the current list contents,
with `limit` the `redis_chat_history_limit` setting. -/
def save_chat_to_redis (limit : Nat) (history : List String)
    (message_type message : String) : List String :=
  let pairs := pairsOf history
  let pairs :=
    if message_type = "user" then pairs ++ [(message, "")]
    else if message_type = "bot" && pairs ≠ [] then
      pairs.dropLast ++ [((pairs.getLast!).1, message)]
    else pairs
  let pairs := takeLastPy limit pairs
  (pairs.map pushPair).flatten

/-- The worker's post-reply cache writes: first the user message, then
the bot reply (`astrology_worker.py` lines 106-107). -/
def saveTurnToRedis (limit : Nat) (history : List String)
    (text response : String) : List String :=
  save_chat_to_redis limit
    (save_chat_to_redis limit history "user" text) "bot" response

/-! ## The generation gateway's extraction pass
(`rudie_agent._extract_final_response`)

Each `re.sub` of the source is one pass below, applied in source order.
Anchored (`^`) patterns substitute at most once at position zero;
unanchored ones run through the scanning engine. -/

/-- Word character, Python `\w` on ASCII input. -/
def isWordC (c : Char) : Bool := c.isAlpha || c.isDigit || c = '_'

/-- Greedy `\w+`. -/
def wordPlus : List Char → Option (List Char)
  | [] => none
  | c :: cs => if isWordC c then some (cs.dropWhile isWordC) else none

/-- Greedy `[a-zA-Z]+` (the `[a-z]+` of the source under `IGNORECASE`). -/
def letterPlus : List Char → Option (List Char)
  | [] => none
  | c :: cs => if c.isAlpha then some (cs.dropWhile Char.isAlpha) else none

/-- Greedy `\d+`. -/
def digitPlus : List Char → Option (List Char)
  | [] => none
  | c :: cs => if c.isDigit then some (cs.dropWhile Char.isDigit) else none

/-- First case-insensitive alternative that matches, regex `(a|b|...)`. -/
def eatAltsCI : List (List Char) → List Char → Option (List Char)
  | [], _ => none
  | a :: as_, l =>
    match eatCI a l with
    | some r => some r
    | none => eatAltsCI as_ l

/-- The lazy tail `.*?\.(\s|$)` under `DOTALL`: advance to the first `.`
that is followed by a whitespace character (consumed) or the end. -/
def lazyDotWsEnd : List Char → Option (List Char)
  | [] => none
  | c :: cs =>
    if c = '.' then
      match cs with
      | [] => some []
      | d :: ds => if pyWs d then some ds else lazyDotWsEnd cs
    else lazyDotWsEnd cs

/-- The tail `.*?\.?\s*`: the lazy part matches empty, then an optional
dot and the whitespace run. -/
def optDotWs (l : List Char) : List Char :=
  dropWs (optC '.' l)

/-- The tail `[^.]+\.`: at least one non-dot character, then the dot. -/
def notDotPlusDot : List Char → Option (List Char)
  | [] => none
  | c :: cs =>
    if c = '.' then none
    else
      match cs.dropWhile (fun x => x ≠ '.') with
      | d :: rs => if d = '.' then some rs else none
      | [] => none

/-- Apply an anchored deleting pattern (`re.sub` of a `^...` pattern with
empty replacement): at most one substitution, at position zero. -/
def applyAnchored (m : List Char → Option (List Char)) (l : List Char) :
    List Char :=
  (m l).getD l

/-- Pass 3, `^\.depart[A-Z]\w+\s*`. -/
def mDepart (l : List Char) : Option (List Char) := do
  let r ← eatCS (strL ".depart") l
  match r with
  | c :: cs =>
    if c.isUpper then do
      let r2 ← wordPlus cs
      pure (dropWs r2)
    else none
  | [] => none

/-- Pass 4, `^(Okay|Alright|Let me think|First|So),?\s+let'?s.*?\.(\s|$)`
(`IGNORECASE | DOTALL`). -/
def mStarterLets (l : List Char) : Option (List Char) := do
  let a ← eatAltsCI
    [strL "Okay", strL "Alright", strL "Let me think", strL "First", strL "So"] l
  let b ← ws1 (optC ',' a)
  let c ← eatCI (strL "let") b
  let d ← eatCI (strL "s") (optC apoC c)
  lazyDotWsEnd d

/-- Pass 5, `^[A-Z][a-z]+,?\s+let'?s (try to |figure out|see).*?\.(\s|$)`
(`IGNORECASE | DOTALL`; under `IGNORECASE` the classes mean any ASCII
letter). -/
def mWordLets (l : List Char) : Option (List Char) := do
  match l with
  | c :: cs =>
    if c.isAlpha then do
      let a ← letterPlus cs
      let b ← ws1 (optC ',' a)
      let c2 ← eatCI (strL "let") b
      let d ← eatCI (strL "s") (optC apoC c2)
      let e ← eatCS (strL " ") d
      let f ← eatAltsCI [strL "try to ", strL "figure out", strL "see"] e
      lazyDotWsEnd f
    else none
  | [] => none

/-- Sentence body of pass 6, `First,?\s+I need to[^.]+\.`. -/
def phraseFirstNeed (l : List Char) : Option (List Char) := do
  let a ← eatCI (strL "First") l
  let b ← ws1 (optC ',' a)
  let c ← eatCI (strL "I need to") b
  notDotPlusDot c

/-- Sentence body of pass 7, `The user (is|wants|might be|provided)[^.]+\.`. -/
def phraseTheUser (l : List Char) : Option (List Char) := do
  let a ← eatCI (strL "The user ") l
  let b ← eatAltsCI [strL "is", strL "wants", strL "might be", strL "provided"] a
  notDotPlusDot b

/-- Sentence body of pass 8, `They (are|were|provided|want)[^.]+\.`. -/
def phraseThey (l : List Char) : Option (List Char) := do
  let a ← eatCI (strL "They ") l
  let b ← eatAltsCI [strL "are", strL "were", strL "provided", strL "want"] a
  notDotPlusDot b

/-- Sentence body of pass 9, `I (need to|should)[^.]+\.`. -/
def phraseINeed (l : List Char) : Option (List Char) := do
  let a ← eatCI (strL "I ") l
  let b ← eatAltsCI [strL "need to", strL "should"] a
  notDotPlusDot b

/-- Scanning matcher for the `\.\s+` alternative of `(^|\.\s+)(body)`. -/
def dotPhraseMatcher (body : List Char → Option (List Char))
    (l : List Char) : Option (List Char × List Char) :=
  match l with
  | c :: cs =>
    if c = '.' then do
      let r ← ws1 cs
      let rest ← body r
      pure ([], rest)
    else none
  | [] => none

/-- One full `re.sub(r'(^|\.\s+)(body)', '', text)` pass: the `^`
alternative fires at most once at position zero, then the scan handles
the `\.\s+` alternative. -/
def sentencePass (body : List Char → Option (List Char)) (l : List Char) :
    List Char :=
  rescan (dotPhraseMatcher body) (applyAnchored body l)

/-- Pass 10/11 matcher: fenced code blocks, `OPEN.*?​``` ` with `DOTALL`
(`OPEN` is ` ```json ` for pass 10 and ` ``` ` for pass 11). -/
def mFence (openTag : List Char) (l : List Char) :
    Option (List Char × List Char) := do
  let a ← eatCS openTag l
  let r ← findTagCS (strL "```") a
  pure ([], r)

/-- Pass 12 core, `(rating|score):\s*\d+(/10)?\s*\.?\s*` (`IGNORECASE`). -/
def ratingCore (l : List Char) : Option (List Char) := do
  let a ← eatAltsCI [strL "rating", strL "score"] l
  let b ← eatCS (strL ":") a
  let c ← digitPlus (dropWs b)
  let c := match eatCS (strL "/10") c with
    | some r => r
    | none => c
  pure (dropWs (optC '.' (dropWs c)))

/-- Pass 12 matcher with the optional leading domain word,
`(Career |Love |Health |Wealth )?`. -/
def mRating (l : List Char) : Option (List Char × List Char) :=
  match eatAltsCI [strL "Career ", strL "Love ", strL "Health ", strL "Wealth "] l with
  | some a => (ratingCore a).map (fun r => ([], r))
  | none => (ratingCore l).map (fun r => ([], r))

/-- Pass 13 matcher, `\s+\d+/10\s*\.?\s*` replaced by a single space. -/
def mSlashTen (l : List Char) : Option (List Char × List Char) := do
  let a ← ws1 l
  let b ← digitPlus a
  let c ← eatCS (strL "/10") b
  pure ([' '], dropWs (optC '.' (dropWs c)))

/-- Pass 14/15 matcher, `\(score:\s*\d+\)` / `\(rating:\s*\d+\)`
(`IGNORECASE`); `kw` carries the opening parenthesis and keyword. -/
def mParenScore (kw : List Char) (l : List Char) :
    Option (List Char × List Char) := do
  let a ← eatCI kw l
  let b ← digitPlus (dropWs a)
  let c ← eatCS (strL ")") b
  pure ([], c)

/-- Left curly brace. -/
def lbrace : Char := Char.ofNat 123

/-- Right curly brace. -/
def rbrace : Char := Char.ofNat 125

/-- Pass 16/17 matcher, `\{[^}]*\n[^}]*\}` (and the bracket analogue):
from the opener to the next closer, provided a newline lies between. -/
def mMultilineBlock (openC closeC : Char) (l : List Char) :
    Option (List Char × List Char) :=
  match l with
  | c :: cs =>
    if c = openC then
      let inner := cs.takeWhile (fun x => x ≠ closeC)
      let rest := cs.dropWhile (fun x => x ≠ closeC)
      if rest ≠ [] && inner.contains '\n' then some ([], rest.tail)
      else none
    else none
  | [] => none

/-- Lazy search for a two-star closer that does not cross a newline
(`.*?` without `DOTALL`), returning the captured group and the rest. -/
def findStarStar : List Char → Option (List Char × List Char)
  | [] => none
  | c :: cs =>
    match eatCS (strL "**") (c :: cs) with
    | some rest => some ([], rest)
    | none =>
      if c = '\n' then none
      else
        match findStarStar cs with
        | some (inn, aft) => some (c :: inn, aft)
        | none => none

/-- Pass 18 matcher, `\*\*(.*?)\*\*` replaced by the group. -/
def mBold (l : List Char) : Option (List Char × List Char) := do
  let a ← eatCS (strL "**") l
  findStarStar a

/-- Pass 19 matcher, `\*(.*?)\*` replaced by the group. -/
def mItalic (l : List Char) : Option (List Char × List Char) :=
  match l with
  | c :: cs =>
    if c = '*' then
      let inner := cs.takeWhile (fun x => x ≠ '*' && x ≠ '\n')
      let rest := cs.dropWhile (fun x => x ≠ '*' && x ≠ '\n')
      if rest.head? = some '*' then some (inner, rest.tail) else none
    else none
  | [] => none

/-- Pass 20 matcher, inline code `X([^X]+)X` for the backtick `X`,
replaced by the group. -/
def mInlineCode (l : List Char) : Option (List Char × List Char) :=
  match l with
  | c :: cs =>
    if c = btC then
      let inner := cs.takeWhile (fun x => x ≠ btC)
      let rest := cs.dropWhile (fun x => x ≠ btC)
      if rest.head? = some btC && inner ≠ [] then some (inner, rest.tail)
      else none
    else none
  | [] => none

/-- Drop a whitespace run, remembering whether the last dropped
character was a newline (used to detect that a `MULTILINE` `^` anchor
matches right after the consumed `\s*`). -/
def wsTrack : List Char → Bool → Bool × List Char
  | [], last => (last, [])
  | c :: cs, last => if pyWs c then wsTrack cs (c = '\n') else (last, c :: cs)

/-- Chained line-start deletions for a `MULTILINE` pattern
`^core\s*`: after one match whose `\s*` ends with a newline, the next
position is again a line start, so the pattern can fire again there. -/
def chainLineStart (core : List Char → Option (List Char)) :
    Nat → List Char → Option (List Char)
  | 0, _ => none
  | fuel + 1, l => do
    let r ← core l
    let (nl, r2) := wsTrack r false
    if nl then
      match chainLineStart core fuel r2 with
      | some r3 => some r3
      | none => some r2
    else some r2

/-- Core of pass 21, `#+`. -/
def hashCore : List Char → Option (List Char)
  | [] => none
  | c :: cs => if c = '#' then some (cs.dropWhile (fun x => x = '#')) else none

/-- Core of pass 22, `\d+\.`. -/
def numListCore (l : List Char) : Option (List Char) := do
  let a ← digitPlus l
  eatCS (strL ".") a

/-- Core of pass 23, `-`. -/
def dashCore : List Char → Option (List Char)
  | [] => none
  | c :: cs => if c = '-' then some cs else none

/-- Scanning matcher for a `MULTILINE` `^core\s*` pass at the interior
line starts (the position after a newline); the newline itself is kept. -/
def mLineStart (core : List Char → Option (List Char)) (l : List Char) :
    Option (List Char × List Char) :=
  match l with
  | c :: cs =>
    if c = '\n' then
      (chainLineStart core cs.length cs).map (fun r => (['\n'], r))
    else none
  | [] => none

/-- One full `MULTILINE` `^core\s*` pass: position zero, then the scan. -/
def lineStartPass (core : List Char → Option (List Char)) (l : List Char) :
    List Char :=
  rescan (mLineStart core) (applyAnchored (chainLineStart core l.length) l)

/-- Pass 24 matcher, `\n\s*\n` replaced by `\n`: a newline, then the
whitespace run up to and including its last newline. -/
def mBlankLines (l : List Char) : Option (List Char × List Char) :=
  match l with
  | c :: cs =>
    if c = '\n' then
      let run := cs.takeWhile pyWs
      let rest := cs.drop run.length
      let tl := run.reverse.takeWhile (fun x => x ≠ '\n')
      if tl.length = run.length then none
      else some (['\n'], tl.reverse ++ rest)
    else none
  | [] => none

/-- Pass 25 matcher, ` +` replaced by a single space. -/
def mSpaces (l : List Char) : Option (List Char × List Char) :=
  match l with
  | c :: cs =>
    if c = ' ' then some ([' '], cs.dropWhile (fun x => x = ' '))
    else none
  | [] => none

/-- The whole `_extract_final_response`, passes in source order. -/
def extract_final_response_data (l : List Char) : List Char :=
  if l = [] then []
  else
    let t := rescan matchThinkCI l
    let t := rescan matchThinkingCI t
    let t := applyAnchored mDepart t
    let t := applyAnchored mStarterLets t
    let t := applyAnchored mWordLets t
    let t := sentencePass phraseFirstNeed t
    let t := sentencePass phraseTheUser t
    let t := sentencePass phraseThey t
    let t := sentencePass phraseINeed t
    let t := rescan (mFence (strL "```json")) t
    let t := rescan (mFence (strL "```")) t
    let t := rescan mRating t
    let t := rescan mSlashTen t
    let t := rescan (mParenScore (strL "(score:")) t
    let t := rescan (mParenScore (strL "(rating:")) t
    let t := rescan (mMultilineBlock lbrace rbrace) t
    let t := rescan (mMultilineBlock '[' ']') t
    let t := rescan mBold t
    let t := rescan mItalic t
    let t := rescan mInlineCode t
    let t := lineStartPass hashCore t
    let t := lineStartPass numListCore t
    let t := lineStartPass dashCore t
    let t := rescan mBlankLines t
    let t := rescan mSpaces t
    pstrip t

/-- String-level `_extract_final_response`. -/
def extract_final_response (s : String) : String :=
  String.mk (extract_final_response_data s.data)

/-! ## Response generation (`rudie_agent.generate_response`)

The model call, the no-function-calling fallback, the direct Ollama call
for `gpt-oss` models and the short-result retry are oracle outcomes; the
post-processing between them is translated directly. -/

/-- The `^...` thinking-starter patterns of lines 341-350, each the
anchored prefix followed by `.*?\.?\s*` (so: the literal prefix, an
optional dot, the whitespace run).  All are `IGNORECASE | DOTALL`. -/
def starterOkayFigure (l : List Char) : Option (List Char) := do
  let a ← eatCI (strL "Okay") l
  let b ← ws1 (optC ',' a)
  let c ← eatCI (strL "let") b
  let d ← eatCI (strL "s try to figure out") (optC apoC c)
  pure (optDotWs d)

/-- Starter `^Alright,?\s+let me see.*?\.?\s*`. -/
def starterAlrightSee (l : List Char) : Option (List Char) := do
  let a ← eatCI (strL "Alright") l
  let b ← ws1 (optC ',' a)
  let c ← eatCI (strL "let me see") b
  pure (optDotWs c)

/-- Starter `^Let me think about this.*?\.?\s*`. -/
def starterLetMeThink (l : List Char) : Option (List Char) := do
  let a ← eatCI (strL "Let me think about this") l
  pure (optDotWs a)

/-- Starter `^First,?\s+I need to.*?\.?\s*`. -/
def starterFirstNeed (l : List Char) : Option (List Char) := do
  let a ← eatCI (strL "First") l
  let b ← ws1 (optC ',' a)
  let c ← eatCI (strL "I need to") b
  pure (optDotWs c)

/-- Starter `^So,?\s+the user.*?\.?\s*`. -/
def starterSoUser (l : List Char) : Option (List Char) := do
  let a ← eatCI (strL "So") l
  let b ← ws1 (optC ',' a)
  let c ← eatCI (strL "the user") b
  pure (optDotWs c)

/-- Starter `^\.depart\w+\s*`. -/
def starterDepart (l : List Char) : Option (List Char) := do
  let a ← eatCI (strL ".depart") l
  let b ← wordPlus a
  pure (dropWs b)

/-- Starter `^They provided.*?\.?\s*`. -/
def starterTheyProvided (l : List Char) : Option (List Char) := do
  let a ← eatCI (strL "They provided") l
  pure (optDotWs a)

/-- Starter `^The user might be.*?\.?\s*`. -/
def starterUserMightBe (l : List Char) : Option (List Char) := do
  let a ← eatCI (strL "The user might be") l
  pure (optDotWs a)

/-- The loop over `thinking_starters`: apply each pattern in order and
strip the text whenever it is non-empty afterwards. -/
def thinkingStarters (l : List Char) : List Char :=
  [starterOkayFigure, starterAlrightSee, starterLetMeThink,
   starterFirstNeed, starterSoUser, starterDepart,
   starterTheyProvided, starterUserMightBe].foldl
    (fun t pat =>
      let t2 := applyAnchored pat t
      if t2 ≠ [] then pstrip t2 else t2) l

/-- Python `text.split('.')`. -/
def splitDot : List Char → List (List Char)
  | [] => [[]]
  | c :: cs =>
    if c = '.' then [] :: splitDot cs
    else
      match splitDot cs with
      | s :: rest => (c :: s) :: rest
      | [] => [[c]]

/-- Python `'.'.join(parts)`. -/
def joinDot (parts : List (List Char)) : List Char :=
  (parts.intersperse ['.']).flatten

/-- Emoji markers of the conversational-content heuristic (line 363). -/
def emojiMarkers : List Char :=
  ['🌙', '✨', '💫', '🌻', '💖', '🙏', '🌞', '🌿', '💕']

/-- Conversational words of the same heuristic (line 364). -/
def convWords : List (List Char) :=
  [strL "hey", strL "hi there", strL "lovely", strL "beautiful"]

/-- Thinking-like lead words tested on `response_text[:50].lower()`
(line 359). -/
def leadWords : List (List Char) :=
  [strL "they", strL "the user", strL "provided", strL "might be",
   strL "looking for"]

/-- Sentence test of the heuristic: an emoji marker occurs in the
sentence, or a conversational word occurs in its lowercase form. -/
def conversationalSentence (s : List Char) : Bool :=
  emojiMarkers.any (fun e => pyContains s [e])
    || convWords.any (fun w => pyContains (lowerL s) w)

/-- Lines 357-367: when the start of the text still looks like internal
reasoning, keep only the sentences from the first conversational one on.
Without a conversational sentence the text is left unchanged. -/
def heuristicFifty (l : List Char) : List Char :=
  if l ≠ [] && leadWords.any (fun w => pyContains (lowerL (l.take 50)) w) then
    let sentences := splitDot l
    match sentences.findIdx? conversationalSentence with
    | some i => pstrip (joinDot (sentences.drop i))
    | none => l
  else l

/-- Accumulation loop of the `>400` truncation (lines 371-377): keep
adding `sentence + '.'` while the result stays within 400 characters,
stop at the first overflow. -/
def truncLoop : List (List Char) → List Char → List Char
  | [], acc => acc
  | s :: rest, acc =>
    if (acc ++ s ++ ['.']).length ≤ 400 then truncLoop rest (acc ++ s ++ ['.'])
    else acc

/-- Lines 369-378: truncate a too-long response at sentence boundaries. -/
def truncate400 (l : List Char) : List Char :=
  if 400 < l.length then pstrip (truncLoop (splitDot l) [])
  else l

/-- Apostrophe as a one-character string. -/
def apoS : String := String.mk [apoC]

/-- Static apology returned by the outer `except` of `generate_response`. -/
def connectionApology : String :=
  "Sorry, I" ++ apoS ++ "m having trouble with my cosmic connection right now 🌙 Could you try asking again in a moment? 🙏"

/-- Static fallback used when the response stays empty or too short
(line 418). -/
def shortFallback : String :=
  "I" ++ apoS ++ "m picking up some interesting cosmic energy around you right now! 🌙 Let me tune in a bit more - could you tell me what specific area you" ++ apoS ++ "d like guidance on? Career, love, or something else? ✨🌿"

/-- Settings consulted by `generate_response`. -/
structure GenSettings where
  enable_thinking : Bool
  ollama_model : String
deriving Repr

/-- Model calls issued by `generate_response`, with the function-calling
configuration they carry (`FunctionChoiceBehavior.Auto` = `true`,
`None` = `false`). -/
inductive GenCall
  | chatPrimary (tools : Bool)
  | chatNoFunc (tools : Bool)
  | gptOssDirect
  | chatRetrySimple (tools : Bool)
deriving DecidableEq, Repr

/-- Oracle for the model calls of `generate_response`: each call either
raises or produces the raw model text. -/
structure GenOracle where
  gptOss : Except Unit String
  primary : Except Unit String
  noFunc : Except Unit String
  retrySimple : Except Unit String
deriving Repr

/-- The post-processing shared by both branches: thinking starters, the
conversational heuristic, the `>400` truncation. -/
def postProcess (l : List Char) : List Char :=
  truncate400 (heuristicFifty (thinkingStarters l))

/-- The short-result condition of lines 381 and 417:
`not response_text or len(response_text) < 20`. -/
def tooShort (l : List Char) : Bool :=
  l = [] || l.length < 20

/-- First model interaction of `generate_response`: the direct Ollama
call for `gpt-oss` models, otherwise the Semantic-Kernel call with
automatic function calling and, on its exception, the retry with
function calling disabled; an `error` outcome reaches the outer
`except` and yields the static apology. -/
def genFirstTry (o : GenOracle) (is_gpt_oss : Bool) :
    Except (List GenCall) (List Char × List GenCall) :=
  if is_gpt_oss then
    match o.gptOss with
    | Except.ok content =>
      Except.ok (extract_final_response_data content.data, [GenCall.gptOssDirect])
    | Except.error _ => Except.error [GenCall.gptOssDirect]
  else
    match o.primary with
    | Except.ok r =>
      Except.ok (extract_final_response_data (pstrip r.data),
                 [GenCall.chatPrimary true])
    | Except.error _ =>
      match o.noFunc with
      | Except.ok r =>
        Except.ok (extract_final_response_data (pstrip r.data),
                   [GenCall.chatPrimary true, GenCall.chatNoFunc false])
      | Except.error _ =>
        Except.error [GenCall.chatPrimary true, GenCall.chatNoFunc false]

/-- Short-result handling (lines 380-418): when the post-processed text
is degenerate and thinking mode is on for a non-`gpt-oss` model, one
retry with the simplified prompt (function calling still
`FunctionChoiceBehavior.Auto`); afterwards the static fallback if the
text is still degenerate. -/
def genShortFallback (st : GenSettings) (o : GenOracle) (is_gpt_oss : Bool)
    (t : List Char) (calls : List GenCall) : List Char × List GenCall :=
  let (t, calls) :=
    if tooShort t then
      if st.enable_thinking && !is_gpt_oss then
        match o.retrySimple with
        | Except.ok r =>
          (extract_final_response_data (pstrip r.data),
           calls ++ [GenCall.chatRetrySimple true])
        | Except.error _ => (t, calls ++ [GenCall.chatRetrySimple true])
      else (t, calls)
    else (t, calls)
  let t := if tooShort t then shortFallback.data else t
  (t, calls)

/-- Whole `generate_response` run: the produced reply together with the
model calls made.  `is_gpt_oss` is `"gpt-oss" in settings.ollama_model
.lower()`; `enable_thinking` is `settings.enable_thinking or is_gpt_oss`. -/
def generate_response (st : GenSettings) (o : GenOracle) :
    String × List GenCall :=
  let is_gpt_oss := pyContains (lowerL st.ollama_model.data) (strL "gpt-oss")
  match genFirstTry o is_gpt_oss with
  | Except.error calls => (connectionApology, calls)
  | Except.ok (t0, calls) =>
    let (t, calls) := genShortFallback st o is_gpt_oss (postProcess t0) calls
    (String.mk t, calls)

/-! ## Onboarding: profile validation, the wizard, the shortcut
(`main.py`) -/

/-- Consume exactly `n` digits, regex `\d{n}`. -/
def digitsN : Nat → List Char → Option (List Char)
  | 0, l => some l
  | _ + 1, [] => none
  | n + 1, c :: cs => if c.isDigit then digitsN n cs else none

/-- Prefix matcher for `\d{4}-\d{2}-\d{2}` (the unanchored `re.match` of
`validate_birth_data`). -/
def matchDatePre (l : List Char) : Option (List Char) := do
  let a ← digitsN 4 l
  let b ← eatCS (strL "-") a
  let c ← digitsN 2 b
  let d ← eatCS (strL "-") c
  digitsN 2 d

/-- Prefix matcher for `\d{2}:\d{2}`. -/
def matchTimePre (l : List Char) : Option (List Char) := do
  let a ← digitsN 2 l
  let b ← eatCS (strL ":") a
  digitsN 2 b

/-- Python truthiness of a nullable string (`all([...])` members). -/
def truthyS : Option String → Bool
  | none => false
  | some s => s ≠ ""

/-- The `validate_birth_data` predicate of `main.py`: all three values
truthy, date and time match their prefix patterns, place contains a
comma. -/
def validate_birth_data (d t p : Option String) : Bool :=
  truthyS d && truthyS t && truthyS p
    && (matchDatePre (d.getD "").data).isSome
    && (matchTimePre (t.getD "").data).isSome
    && pyContains (p.getD "").data [',']

/-- The `$` anchor of an unanchored-end Python pattern: end of input or
a single trailing newline. -/
def atEnd (l : List Char) : Bool :=
  l = [] || l = ['\n']

/-- Gregorian leap year, as `datetime` uses. -/
def isLeap (y : Nat) : Bool :=
  y % 4 = 0 && (y % 100 ≠ 0 || y % 400 = 0)

/-- Days in a month of the proleptic Gregorian calendar. -/
def daysInMonth (y m : Nat) : Nat :=
  if m = 2 then (if isLeap y then 29 else 28)
  else if m = 4 || m = 6 || m = 9 || m = 11 then 30
  else 31

/-- Numeric value of a digit string. -/
def natOfDigits (l : List Char) : Nat :=
  l.foldl (fun acc c => acc * 10 + (c.toNat - 48)) 0

/-- Validity of `YYYY-MM-DD` under `datetime.strptime(., '%Y-%m-%d')`:
the year in 1..9999, a real month, a real day of that month. -/
def strptimeDateOk (l : List Char) : Bool :=
  let y := natOfDigits (l.take 4)
  let m := natOfDigits ((l.drop 5).take 2)
  let d := natOfDigits ((l.drop 8).take 2)
  1 ≤ y && y ≤ 9999 && 1 ≤ m && m ≤ 12 && 1 ≤ d && d ≤ daysInMonth y m

/-- `receive_birth_date`: strip, match `^\d{4}-\d{2}-\d{2}$`, check the
date is real; `some stored` on success, `none` on a re-prompt. -/
def receive_birth_date (input : String) : Option String :=
  let dt := pstrip input.data
  match matchDatePre dt with
  | some rest =>
    if atEnd rest && strptimeDateOk dt then some (String.mk dt) else none
  | none => none

/-- Hour/minute range check of `receive_birth_time`. -/
def timeRangeOk (l : List Char) : Bool :=
  let h := natOfDigits (l.take 2)
  let m := natOfDigits ((l.drop 3).take 2)
  h ≤ 23 && m ≤ 59

/-- `receive_birth_time`: strip, match `^\d{2}:\d{2}$`, check ranges. -/
def receive_birth_time (input : String) : Option String :=
  let tt := pstrip input.data
  match matchTimePre tt with
  | some rest =>
    if atEnd rest && timeRangeOk tt then some (String.mk tt) else none
  | none => none

/-- `receive_birth_place`: strip, require a comma. -/
def receive_birth_place (input : String) : Option String :=
  let pt := pstrip input.data
  if pyContains pt [','] then some (String.mk pt) else none

/-- The onboarding fields of a `User` row (the parts of the profile the
two completion paths write). -/
structure UserP where
  date_of_birth : Option String
  time_of_birth : Option String
  place_of_birth : Option String
deriving DecidableEq, Repr

/-- Field assignment shared by both paths (`user.date_of_birth = ...`,
etc., then `commit`). -/
def setBirth (u : UserP) (d t p : String) : UserP :=
  { u with date_of_birth := some d, time_of_birth := some t
           place_of_birth := some p }

/-- One full wizard run from `BIRTH_DATE`: the three receive steps in
sequence; `none` when any step would re-prompt instead. -/
def wizardRun (u : UserP) (dIn tIn pIn : String) : Option UserP := do
  let d ← receive_birth_date dIn
  let t ← receive_birth_time tIn
  let p ← receive_birth_place pIn
  pure (setBirth u d t p)

/-- Output of the extraction agent as `handle_message` inspects it. -/
structure Extracted where
  date_of_birth : Option String
  time_of_birth : Option String
  place_of_birth : Option String
deriving DecidableEq, Repr

/-- The direct-extraction shortcut of `handle_message` (lines 283-304):
when the extraction result is truthy in all three fields, assign them to
the profile and commit; otherwise the shortcut is not taken (`none`). -/
def handleExtracted (u : UserP) (extracted : Option Extracted) :
    Option UserP :=
  match extracted with
  | none => none
  | some e =>
    if truthyS e.date_of_birth && truthyS e.time_of_birth
        && truthyS e.place_of_birth then
      some (setBirth u (e.date_of_birth.getD "") (e.time_of_birth.getD "")
        (e.place_of_birth.getD ""))
    else none

/-! ## Specification-side notions used by the theorems -/

/-- A consumer function `f` only ever returns a suffix of its input. -/
def SfxFn (f : List Char → Option (List Char)) : Prop :=
  ∀ l r, f l = some r → r <:+ l

/-- Matcher contract for the scanning engine: a replacement draws its
characters from the input (or is a plain space, the only character any
of the source substitutions can introduce), and the remainder is made of
input characters. -/
def MOk (m : List Char → Option (List Char × List Char)) : Prop :=
  ∀ l rep rem, m l = some (rep, rem) →
    (∀ c ∈ rep, c ∈ l ∨ c = ' ') ∧ (∀ c ∈ rem, c ∈ l)

/-- Model outputs in which the deliberation delimiters occur only as
properly matched `<think> ... </think>` blocks: a sequence of characters
other than `<`, interleaved with complete blocks whose bodies also avoid
`<`. -/
inductive WFThink : List Char → Prop
  | nil : WFThink []
  | cons {c : Char} {l : List Char} :
      c ≠ '<' → WFThink l → WFThink (c :: l)
  | block {b l : List Char} :
      '<' ∉ b → WFThink l →
      WFThink (strL "<think>" ++ (b ++ (strL "</think>" ++ l)))

/-- Number of short-result retries among the calls of a
`generate_response` run. -/
def retryCount (calls : List GenCall) : Nat :=
  calls.countP (fun c =>
    match c with
    | GenCall.chatRetrySimple _ => true
    | _ => false)

/-! # Theorems -/

/-- C1: the spec claims that an item whose handler raises is not
acknowledged and is redelivered.  In the code, the `try`/`except` sits
inside `async with message.process():`, so the exception never escapes
the `with` body and the broker acknowledges (removes) the item on every
outcome, including a raising handler — `consumeStep parse handler =
acked` for all outcomes, contradicting the claimed at-least-once
redelivery. -/
theorem c1_consumer_acks_even_when_handler_raises :
    ∀ parseRaises handlerRaises : Bool,
      consumeStep parseRaises handlerRaises = ConsumeAck.acked := by
  intro p h
  cases p <;> cases h <;> rfl

/-- C2 counterexample: a work item missing only `request_id` is *not*
dropped — the run starts the presence signaler and calls the memory
gateway, because `required_fields` in `process_request` does not contain
`request_id`. -/
theorem c2_missing_request_id_item_is_processed :
    Ev.typingStart ∈ processRequest
        { request_id := none, user_id := some 1, chat_id := some 2
          message := some "How are my stars", user_context := some
            { name := some "Ana", date_of_birth := some "1990-01-15"
              time_of_birth := some "10:30"
              place_of_birth := some "Sydney, Australia" } }
        { memResult := Except.ok (MemVal.vDict true (some "m"))
          genResult := Except.ok "reply", sendOk := true }
      ∧ Ev.memFetch ∈ processRequest
        { request_id := none, user_id := some 1, chat_id := some 2
          message := some "How are my stars", user_context := some
            { name := some "Ana", date_of_birth := some "1990-01-15"
              time_of_birth := some "10:30"
              place_of_birth := some "Sydney, Australia" } }
        { memResult := Except.ok (MemVal.vDict true (some "m"))
          genResult := Except.ok "reply", sendOk := true } := by
  constructor <;> decide

/-- C2 amended: a work item missing any of the four required top-level
keys (`user_id`, `chat_id`, `message`, `user_context`) or any of the
four required `user_context` fields is dropped on arrival — no gateway
call, no presence signal, normal return; `request_id` is not required
(it is read with an `'unknown'` default). -/
theorem c2_missing_required_field_drops_item
    (r : RequestData) (o : WOracle)
    (h : missing_fields r ≠ [] ∨
      missing_context (r.user_context.getD emptyContext) ≠ []) :
    processRequest r o = [] := by
  unfold processRequest
  rcases h with h | h
  · simp [h]
  · by_cases hm : missing_fields r = []
    · simp [hm, h]
    · simp [hm]

/-- C2 witness: a concrete item with `user_id` absent is dropped. -/
theorem c2_missing_required_field_drops_item_witness :
    (missing_fields
        { request_id := some "r1", user_id := none, chat_id := some 2
          message := some "hi stars", user_context := some
            { name := some "Ana", date_of_birth := some "1990-01-15"
              time_of_birth := some "10:30"
              place_of_birth := some "Sydney, Australia" } } ≠ [] ∨
      missing_context (RequestData.user_context
        { request_id := some "r1", user_id := none, chat_id := some 2
          message := some "hi stars", user_context := some
            { name := some "Ana", date_of_birth := some "1990-01-15"
              time_of_birth := some "10:30"
              place_of_birth := some "Sydney, Australia" } } |>.getD emptyContext) ≠ [])
    ∧ processRequest
        { request_id := some "r1", user_id := none, chat_id := some 2
          message := some "hi stars", user_context := some
            { name := some "Ana", date_of_birth := some "1990-01-15"
              time_of_birth := some "10:30"
              place_of_birth := some "Sydney, Australia" } }
        { memResult := Except.ok (MemVal.vDict true (some "m"))
          genResult := Except.ok "reply", sendOk := true } = [] :=
  ⟨Or.inl (by decide),
   c2_missing_required_field_drops_item _ _ (Or.inl (by decide))⟩

/-- C4: the claim says each completed turn leaves the new (user, reply)
pair as the newest entry of the bounded cache.  `save_chat_to_redis`
stores a fresh user message as an unpaired single entry; the follow-up
bot write regroups the list into complete pairs only, so it drops the
dangling user message and, when an older complete pair exists,
overwrites that pair's reply instead.  Concretely: from an empty cache a
completed turn leaves the cache empty, and from a cache holding the
complete pair `(u1, b1)` a turn `(u2, r2)` leaves `[u1, r2]` — the new
pair is never stored. -/
theorem c4_cache_loses_new_pair :
    saveTurnToRedis 10 [] "hello stars" "Your stars shine." = []
      ∧ saveTurnToRedis 10 ["u1", "b1"] "u2" "r2" = ["u1", "r2"] := by
  constructor <;> decide

/-- C10: a structurally valid work item whose message contains `test`
case-insensitively is dropped before the presence signaler starts and
before any gateway, delivery or persistence action. -/
theorem c10_test_substring_drops_item
    (r : RequestData) (o : WOracle)
    (h1 : missing_fields r = [])
    (h2 : missing_context (r.user_context.getD emptyContext) = [])
    (h3 : pyContains (lowerL (r.message.getD "").data) (strL "test") = true) :
    processRequest r o = [] := by
  unfold processRequest
  simp [h1, h2, isTestMessage, h3]

/-- C10 witness: the ordinary query `greatest day?` (which merely
contains `test`) is silently dropped. -/
theorem c10_test_substring_drops_item_witness :
    (missing_fields
        { request_id := some "r1", user_id := some 1, chat_id := some 2
          message := some "greatest day?", user_context := some
            { name := some "Ana", date_of_birth := some "1990-01-15"
              time_of_birth := some "10:30"
              place_of_birth := some "Sydney, Australia" } } = [])
    ∧ processRequest
        { request_id := some "r1", user_id := some 1, chat_id := some 2
          message := some "greatest day?", user_context := some
            { name := some "Ana", date_of_birth := some "1990-01-15"
              time_of_birth := some "10:30"
              place_of_birth := some "Sydney, Australia" } }
        { memResult := Except.ok (MemVal.vDict true (some "m"))
          genResult := Except.ok "reply", sendOk := true } = [] :=
  ⟨by decide,
   c10_test_substring_drops_item _ _ (by decide) (by decide) (by decide)⟩

theorem keepTypingLoop_isSome (isSet : Nat → Bool) :
    ∀ (fuel i j : Nat), j < fuel → isSet (i + j) = true →
      (keepTypingLoop isSet fuel i).isSome = true := by
  intro fuel
  induction fuel with
  | zero => intro i j hj _; omega
  | succ f ih =>
    intro i j hj hs
    unfold keepTypingLoop
    by_cases h0 : isSet i = true
    · simp [h0]
    · simp only [h0, Bool.false_eq_true, if_false]
      cases j with
      | zero => simp at hs; exact absurd hs h0
      | succ j2 =>
        apply ih (i + 1) j2 (by omega)
        have : i + 1 + j2 = i + (j2 + 1) := by omega
        rw [this]
        exact hs

/-- C3: in every run of `process_request`, either the item is dropped
before the presence signaler starts, or the trace begins with the single
`typingStart` and contains exactly one stop transition of the
`stop_typing` event afterwards — on the success path, the
delivery-failure path and the generation-exception path alike (the later
`set()` calls in `except`/`finally` are no-ops on the already-set
event); moreover the `keep_typing` emission loop observes a set event
and exits within one cadence interval of it. -/
theorem c3_presence_start_stop_balanced
    (r : RequestData) (o : WOracle) (isSet : Nat → Bool) (k : Nat)
    (hset : isSet k = true) :
    (processRequest r o = [] ∨
      ∃ rest, processRequest r o = Ev.typingStart :: rest ∧
        countEv Ev.typingStart rest = 0 ∧ countEv Ev.stopSet rest = 1)
    ∧ (keepTypingLoop isSet (k + 1) 0).isSome = true := by
  refine ⟨?_, keepTypingLoop_isSome isSet (k + 1) 0 k (by omega)
    (by simpa using hset)⟩
  unfold processRequest
  by_cases h1 : missing_fields r = []
  · simp only [h1, ne_eq, not_true_eq_false, if_false]
    by_cases h2 : missing_context (r.user_context.getD emptyContext) = []
    · simp only [h2, ne_eq, not_true_eq_false, if_false]
      by_cases h3 : isTestMessage (r.message.getD "") = true
      · simp [h3]
      · simp only [Bool.not_eq_true] at h3
        simp only [h3, if_false]
        right
        cases hg : o.genResult with
        | error e =>
          refine ⟨_, rfl, ?_, ?_⟩ <;> simp [countEv]
        | ok resp =>
          by_cases hs : o.sendOk = true
          · simp only [hs, if_true]
            refine ⟨_, rfl, ?_, ?_⟩ <;> simp [countEv]
          · simp only [Bool.not_eq_true] at hs
            simp only [hs, if_false]
            refine ⟨_, rfl, ?_, ?_⟩ <;> simp [countEv]
    · simp [h2]
  · simp [h1]

/-- C3 witness: a concrete valid item on the success path, with an event
set at the first check. -/
theorem c3_presence_start_stop_balanced_witness :
    ((fun _ : Nat => true) 0 = true)
    ∧ ((processRequest
          { request_id := some "r1", user_id := some 1, chat_id := some 2
            message := some "How are my stars", user_context := some
              { name := some "Ana", date_of_birth := some "1990-01-15"
                time_of_birth := some "10:30"
                place_of_birth := some "Sydney, Australia" } }
          { memResult := Except.ok (MemVal.vDict true (some "m"))
            genResult := Except.ok "reply", sendOk := true } = [] ∨
        ∃ rest, processRequest
          { request_id := some "r1", user_id := some 1, chat_id := some 2
            message := some "How are my stars", user_context := some
              { name := some "Ana", date_of_birth := some "1990-01-15"
                time_of_birth := some "10:30"
                place_of_birth := some "Sydney, Australia" } }
          { memResult := Except.ok (MemVal.vDict true (some "m"))
            genResult := Except.ok "reply", sendOk := true }
            = Ev.typingStart :: rest ∧
          countEv Ev.typingStart rest = 0 ∧ countEv Ev.stopSet rest = 1)
      ∧ (keepTypingLoop (fun _ => true) (0 + 1) 0).isSome = true) :=
  ⟨rfl, c3_presence_start_stop_balanced _ _ (fun _ => true) 0 rfl⟩

/-- C8: when the memory fetch raises or returns a non-object (`None` or
a non-dict), the worker still reaches generation, with the empty memory
digest in the context — the turn is not abandoned. -/
theorem c8_memory_failure_degrades_to_empty_digest
    (r : RequestData) (o : WOracle)
    (h1 : missing_fields r = [])
    (h2 : missing_context (r.user_context.getD emptyContext) = [])
    (h3 : isTestMessage (r.message.getD "") = false)
    (hm : o.memResult = Except.error () ∨
      o.memResult = Except.ok MemVal.vNone ∨
      o.memResult = Except.ok MemVal.vNonDict) :
    Ev.generate "" ∈ processRequest r o := by
  unfold processRequest
  simp only [h1, h2, h3, ne_eq, not_true_eq_false, if_false, Bool.false_eq_true]
  have hmem : (match o.memResult with
      | Except.ok v => memoryDataOf v
      | Except.error _ => "") = "" := by
    rcases hm with h | h | h <;> rw [h] <;> rfl
  rw [hmem]
  cases hg : o.genResult with
  | error e => simp
  | ok resp =>
    by_cases hs : o.sendOk = true
    · simp [hs]
    · simp only [Bool.not_eq_true] at hs
      simp [hs]

/-- C8 witness: a concrete valid item whose memory fetch raises still
generates with an empty digest. -/
theorem c8_memory_failure_degrades_to_empty_digest_witness :
    (missing_fields
        { request_id := some "r1", user_id := some 1, chat_id := some 2
          message := some "How are my stars", user_context := some
            { name := some "Ana", date_of_birth := some "1990-01-15"
              time_of_birth := some "10:30"
              place_of_birth := some "Sydney, Australia" } } = [])
    ∧ Ev.generate "" ∈ processRequest
        { request_id := some "r1", user_id := some 1, chat_id := some 2
          message := some "How are my stars", user_context := some
            { name := some "Ana", date_of_birth := some "1990-01-15"
              time_of_birth := some "10:30"
              place_of_birth := some "Sydney, Australia" } }
        { memResult := Except.error (), genResult := Except.ok "reply"
          sendOk := true } :=
  ⟨by decide,
   c8_memory_failure_degrades_to_empty_digest _ _ (by decide) (by decide)
     (by decide) (Or.inl rfl)⟩

theorem matchDatePre_ne_nil {l r : List Char}
    (h : matchDatePre l = some r) : l ≠ [] := by
  intro hl
  subst hl
  simp [matchDatePre, digitsN] at h

theorem matchTimePre_ne_nil {l r : List Char}
    (h : matchTimePre l = some r) : l ≠ [] := by
  intro hl
  subst hl
  simp [matchTimePre, digitsN] at h

theorem mk_ne_empty {l : List Char} (h : l ≠ []) : String.mk l ≠ "" := by
  intro hEq
  exact h (congrArg String.data hEq)

theorem receive_birth_date_inv {input : String} {d : String}
    (h : receive_birth_date input = some d) :
    d = String.mk (pstrip input.data) ∧
      ∃ rest, matchDatePre (pstrip input.data) = some rest := by
  unfold receive_birth_date at h
  cases hmd : matchDatePre (pstrip input.data) with
  | none => simp only [hmd] at h; exact absurd h (by simp)
  | some rest =>
    simp only [hmd] at h
    by_cases hc : (atEnd rest && strptimeDateOk (pstrip input.data)) = true
    · rw [if_pos hc] at h
      exact ⟨(Option.some.injEq _ _ ▸ h).symm, rest, rfl⟩
    · rw [if_neg hc] at h; simp at h

theorem receive_birth_time_inv {input : String} {t : String}
    (h : receive_birth_time input = some t) :
    t = String.mk (pstrip input.data) ∧
      ∃ rest, matchTimePre (pstrip input.data) = some rest := by
  unfold receive_birth_time at h
  cases hmd : matchTimePre (pstrip input.data) with
  | none => simp only [hmd] at h; exact absurd h (by simp)
  | some rest =>
    simp only [hmd] at h
    by_cases hc : (atEnd rest && timeRangeOk (pstrip input.data)) = true
    · rw [if_pos hc] at h
      exact ⟨(Option.some.injEq _ _ ▸ h).symm, rest, rfl⟩
    · rw [if_neg hc] at h; simp at h

theorem receive_birth_place_inv {input : String} {p : String}
    (h : receive_birth_place input = some p) :
    p = String.mk (pstrip input.data) ∧
      pyContains (pstrip input.data) [','] = true := by
  unfold receive_birth_place at h
  by_cases hc : pyContains (pstrip input.data) [','] = true
  · rw [if_pos hc] at h
    exact ⟨(Option.some.injEq _ _ ▸ h).symm, hc⟩
  · rw [if_neg (by simpa using hc)] at h; simp at h

theorem pyContains_ne_nil {l sub : List Char} (hsub : sub ≠ [])
    (h : pyContains l sub = true) : l ≠ [] := by
  intro hl
  subst hl
  have h2 : sub <:+: ([] : List Char) := of_decide_eq_true h
  have h3 : sub = [] := by
    have := h2.sublist
    exact List.eq_nil_of_sublist_nil this
  exact hsub h3

/-- C9: completing onboarding through the three-step wizard and through
the direct-extraction shortcut, fed the same three (stored) field
values, leaves the profile in the same completed state — identical
`date_of_birth`, `time_of_birth`, `place_of_birth`, and the resulting
profile passes `validate_birth_data`. -/
theorem c9_wizard_and_shortcut_agree
    (u : UserP) (dIn tIn pIn : String) (d t p : String)
    (hd : receive_birth_date dIn = some d)
    (ht : receive_birth_time tIn = some t)
    (hp : receive_birth_place pIn = some p) :
    wizardRun u dIn tIn pIn = some (setBirth u d t p)
    ∧ handleExtracted u (some
        { date_of_birth := some d, time_of_birth := some t
          place_of_birth := some p }) = some (setBirth u d t p)
    ∧ validate_birth_data (some d) (some t) (some p) = true := by
  obtain ⟨hdEq, restD, hmD⟩ := receive_birth_date_inv hd
  obtain ⟨htEq, restT, hmT⟩ := receive_birth_time_inv ht
  obtain ⟨hpEq, hComma⟩ := receive_birth_place_inv hp
  have hdne : d ≠ "" := hdEq ▸ mk_ne_empty (matchDatePre_ne_nil hmD)
  have htne : t ≠ "" := htEq ▸ mk_ne_empty (matchTimePre_ne_nil hmT)
  have hpne : p ≠ "" :=
    hpEq ▸ mk_ne_empty (pyContains_ne_nil (by simp) hComma)
  refine ⟨?_, ?_, ?_⟩
  · simp [wizardRun, hd, ht, hp]
  · simp [handleExtracted, truthyS, hdne, htne, hpne]
  · have hdd : (some d |>.getD "").data = pstrip dIn.data := by
      rw [hdEq]; rfl
    have htd : (some t |>.getD "").data = pstrip tIn.data := by
      rw [htEq]; rfl
    have hpd : (some p |>.getD "").data = pstrip pIn.data := by
      rw [hpEq]; rfl
    simp only [validate_birth_data, truthyS, hdd, htd, hpd, hmD, hmT, hComma]
    simp [hdne, htne, hpne]

/-- C9 witness: concrete equivalent values through both paths. -/
theorem c9_wizard_and_shortcut_agree_witness :
    receive_birth_date " 1990-01-15 " = some "1990-01-15"
    ∧ (wizardRun
          { date_of_birth := none, time_of_birth := none
            place_of_birth := none }
          " 1990-01-15 " "10:30" "Sydney, Australia"
        = some (setBirth
            { date_of_birth := none, time_of_birth := none
              place_of_birth := none }
            "1990-01-15" "10:30" "Sydney, Australia")
      ∧ handleExtracted
          { date_of_birth := none, time_of_birth := none
            place_of_birth := none }
          (some
            { date_of_birth := some "1990-01-15"
              time_of_birth := some "10:30"
              place_of_birth := some "Sydney, Australia" })
        = some (setBirth
            { date_of_birth := none, time_of_birth := none
              place_of_birth := none }
            "1990-01-15" "10:30" "Sydney, Australia")
      ∧ validate_birth_data (some "1990-01-15") (some "10:30")
          (some "Sydney, Australia") = true) :=
  ⟨by decide,
   c9_wizard_and_shortcut_agree _ " 1990-01-15 " "10:30" "Sydney, Australia"
     _ _ _ (by decide) (by decide) (by decide)⟩

theorem truncLoop_length_le :
    ∀ (ss : List (List Char)) (acc : List Char),
      acc.length ≤ 400 → (truncLoop ss acc).length ≤ 400 := by
  intro ss
  induction ss with
  | nil => intro acc h; exact h
  | cons s rest ih =>
    intro acc h
    unfold truncLoop
    by_cases hc : (acc ++ s ++ ['.']).length ≤ 400
    · rw [if_pos hc]; exact ih _ hc
    · rw [if_neg hc]; exact h

theorem truncLoop_ends_dot :
    ∀ (ss : List (List Char)) (acc : List Char),
      (acc = [] ∨ acc.getLast? = some '.') →
      (truncLoop ss acc = [] ∨ (truncLoop ss acc).getLast? = some '.') := by
  intro ss
  induction ss with
  | nil => intro acc h; exact h
  | cons s rest ih =>
    intro acc h
    unfold truncLoop
    by_cases hc : (acc ++ s ++ ['.']).length ≤ 400
    · rw [if_pos hc]
      exact ih _ (Or.inr (List.getLast?_concat _))
    · rw [if_neg hc]; exact h

theorem pstrip_length_le (l : List Char) : (pstrip l).length ≤ l.length := by
  unfold pstrip
  calc (((l.dropWhile pyWs).reverse.dropWhile pyWs).reverse).length
      = ((l.dropWhile pyWs).reverse.dropWhile pyWs).length := by
        rw [List.length_reverse]
    _ ≤ (l.dropWhile pyWs).reverse.length :=
        ((List.dropWhile_suffix pyWs).sublist).length_le
    _ = (l.dropWhile pyWs).length := by rw [List.length_reverse]
    _ ≤ l.length := ((List.dropWhile_suffix pyWs).sublist).length_le

theorem truncate400_length_le (l : List Char) :
    (truncate400 l).length ≤ 400 := by
  unfold truncate400
  by_cases hc : 400 < l.length
  · rw [if_pos hc]
    exact le_trans (pstrip_length_le _) (truncLoop_length_le _ [] (by simp))
  · rw [if_neg hc]; omega

theorem getLast?_of_suffix {l s : List Char} (hs : s <:+ l) (hne : s ≠ []) :
    s.getLast? = l.getLast? := by
  obtain ⟨t, rfl⟩ := hs
  rw [List.getLast?_append]
  cases h : s.getLast? with
  | none => exact absurd (List.getLast?_eq_none_iff.mp h) hne
  | some a => rfl

theorem pstrip_getLast_dot {l : List Char} (h : l.getLast? = some '.') :
    (pstrip l).getLast? = some '.' := by
  have hlne : l ≠ [] := by
    intro hl; subst hl; simp at h
  have hdot : '.' ∈ l := by
    have h1 := h
    rw [List.getLast?_eq_getLast l hlne] at h1
    have h2 : l.getLast hlne = '.' := Option.some.inj h1
    rw [← h2]
    exact List.getLast_mem hlne
  have hA : (l.dropWhile pyWs) ≠ [] := by
    intro hA
    have hall := List.dropWhile_eq_nil_iff.mp hA
    have := hall '.' hdot
    simp [pyWs] at this
  have hAl : (l.dropWhile pyWs).getLast? = some '.' := by
    rw [getLast?_of_suffix (List.dropWhile_suffix pyWs) hA]; exact h
  have hhead : (l.dropWhile pyWs).reverse.head? = some '.' := by
    rw [List.head?_reverse]; exact hAl
  unfold pstrip
  cases hrev : (l.dropWhile pyWs).reverse with
  | nil => rw [hrev] at hhead; simp at hhead
  | cons c cs =>
    rw [hrev] at hhead
    simp at hhead
    subst hhead
    rw [List.dropWhile_cons]
    simp [pyWs]

theorem truncate400_boundary {l : List Char} (h : 400 < l.length) :
    truncate400 l = [] ∨ (truncate400 l).getLast? = some '.' := by
  unfold truncate400
  rw [if_pos h]
  rcases truncLoop_ends_dot (splitDot l) [] (Or.inl rfl) with h2 | h2
  · left; rw [h2]; rfl
  · right; exact pstrip_getLast_dot h2

theorem truncate400_id {l : List Char} (h : l.length ≤ 400) :
    truncate400 l = l := by
  unfold truncate400
  rw [if_neg (by omega)]

set_option maxRecDepth 4000 in
theorem shortFallback_length_le : shortFallback.data.length ≤ 400 := by decide

set_option maxRecDepth 4000 in
theorem connectionApology_length_le : connectionApology.length ≤ 400 := by
  decide

theorem genShortFallback_length_le (st : GenSettings) (o : GenOracle)
    (g : Bool) (t : List Char) (calls : List GenCall)
    (ht : t.length ≤ 400)
    (hre : ∀ r2, o.retrySimple = Except.ok r2 →
      (extract_final_response_data (pstrip r2.data)).length ≤ 400) :
    (genShortFallback st o g t calls).1.length ≤ 400 := by
  unfold genShortFallback
  by_cases hshort : tooShort t = true
  · rw [if_pos hshort]
    by_cases hth : (st.enable_thinking && !g) = true
    · rw [if_pos hth]
      cases hr : o.retrySimple with
      | ok r2 =>
        simp only
        by_cases h2 : tooShort (extract_final_response_data (pstrip r2.data)) = true
        · rw [if_pos h2]; exact shortFallback_length_le
        · rw [if_neg h2]; exact hre r2 hr
      | error e =>
        simp only
        rw [if_pos hshort]
        exact shortFallback_length_le
    · rw [if_neg hth]
      simp only
      rw [if_pos hshort]
      exact shortFallback_length_le
  · rw [if_neg hshort]
    simp only
    rw [if_neg hshort]
    exact ht

/-- C6 amended: the `>400` truncation applies to the post-processed
result of the initial generation — there the reply stays within the
400-character ceiling, a result at or under the ceiling is returned
untouched by truncation, and a fired truncation ends at a `.` sentence
boundary; but a result adopted from the short-result fallback retry is
returned without renewed truncation, so the overall reply respects the
ceiling only under the hypothesis that the cleaned retry result does. -/
theorem c6_truncation_ceiling (st : GenSettings) (o : GenOracle)
    (s : List Char)
    (hretry : ∀ r2, o.retrySimple = Except.ok r2 →
      (extract_final_response_data (pstrip r2.data)).length ≤ 400) :
    (generate_response st o).1.length ≤ 400
    ∧ (s.length ≤ 400 → truncate400 s = s)
    ∧ (400 < s.length → (truncate400 s).length ≤ 400
        ∧ (truncate400 s = [] ∨ (truncate400 s).getLast? = some '.')) := by
  refine ⟨?_, fun h => truncate400_id h,
    fun h => ⟨truncate400_length_le s, truncate400_boundary h⟩⟩
  show (let is_gpt_oss := pyContains (lowerL st.ollama_model.data) (strL "gpt-oss")
    match genFirstTry o is_gpt_oss with
    | Except.error calls => (connectionApology, calls)
    | Except.ok (t0, calls) =>
      let (t, calls) := genShortFallback st o is_gpt_oss (postProcess t0) calls
      (String.mk t, calls)).1.length ≤ 400
  simp only
  cases hft : genFirstTry o (pyContains (lowerL st.ollama_model.data) (strL "gpt-oss")) with
  | error calls => exact connectionApology_length_le
  | ok tc =>
    obtain ⟨t0, calls⟩ := tc
    exact genShortFallback_length_le st o _ _ calls
      (truncate400_length_le _) hretry

/-- C6 witness: hypotheses discharged at a concrete oracle whose retry
raises. -/
theorem c6_truncation_ceiling_witness :
    (∀ r2, (Except.error () : Except Unit String) = Except.ok r2 →
      (extract_final_response_data (pstrip r2.data)).length ≤ 400)
    ∧ ((generate_response { enable_thinking := false, ollama_model := "llama3" }
          { gptOss := Except.error (), primary := Except.ok ""
            noFunc := Except.error (), retrySimple := Except.error () }).1.length ≤ 400
      ∧ (([] : List Char).length ≤ 400 → truncate400 [] = [])
      ∧ (400 < ([] : List Char).length → (truncate400 []).length ≤ 400
          ∧ (truncate400 [] = [] ∨ (truncate400 []).getLast? = some '.'))) :=
  ⟨fun _r2 h => (nomatch h),
   c6_truncation_ceiling _ _ [] (fun _r2 h => (nomatch h))⟩

set_option maxRecDepth 100000 in
/-- C6 counterexample: with thinking mode on and a degenerate primary
result, a 401-character retry result is returned as the reply without
truncation — the claim that every over-ceiling cleaned result is
truncated to at most 400 characters is false on the code. -/
theorem c6_retry_result_exceeds_ceiling :
    400 < ((generate_response
      { enable_thinking := true, ollama_model := "llama3" }
      { gptOss := Except.error (), primary := Except.ok ""
        noFunc := Except.error ()
        retrySimple := Except.ok (String.mk (List.replicate 401 'a')) }).1).length := by
  decide

set_option maxRecDepth 20000 in
/-- C7 counterexample: with thinking mode off, a degenerate model result
is answered by the static fallback with *no* retry at all — the claimed
unconditional single retry does not happen. -/
theorem c7_no_retry_without_thinking :
    (generate_response { enable_thinking := false, ollama_model := "llama3" }
      { gptOss := Except.error (), primary := Except.ok ""
        noFunc := Except.error ()
        retrySimple := Except.ok "The stars look bright for you tonight." }).2
      = [GenCall.chatPrimary true]
    ∧ (generate_response { enable_thinking := false, ollama_model := "llama3" }
      { gptOss := Except.error (), primary := Except.ok ""
        noFunc := Except.error ()
        retrySimple := Except.ok "The stars look bright for you tonight." }).1
      = shortFallback := by
  constructor <;> decide

/-- C7 amended: when the cleaned primary result is degenerate (empty or
under 20 characters), the single simplified-prompt retry happens only in
thinking mode on a non-`gpt-oss` model — and it keeps tool use enabled
(`FunctionChoiceBehavior.Auto`); without thinking mode there is no retry
and the static fallback is returned directly; when the retry raises or
its cleaned result is still degenerate, the static fallback is returned
after exactly one retry. -/
theorem c7_single_retry_only_in_thinking_mode
    (st : GenSettings) (o : GenOracle) (r : String)
    (hgpt : pyContains (lowerL st.ollama_model.data) (strL "gpt-oss") = false)
    (hpr : o.primary = Except.ok r)
    (hshort : tooShort (postProcess
      (extract_final_response_data (pstrip r.data))) = true) :
    (st.enable_thinking = true →
      retryCount (generate_response st o).2 = 1
      ∧ GenCall.chatRetrySimple true ∈ (generate_response st o).2
      ∧ (o.retrySimple = Except.error () →
          (generate_response st o).1 = shortFallback)
      ∧ (∀ r2, o.retrySimple = Except.ok r2 →
          tooShort (extract_final_response_data (pstrip r2.data)) = true →
          (generate_response st o).1 = shortFallback))
    ∧ (st.enable_thinking = false →
      retryCount (generate_response st o).2 = 0
      ∧ (generate_response st o).1 = shortFallback) := by
  constructor
  · intro hth
    refine ⟨?_, ?_, ?_, ?_⟩
    · cases hr2 : o.retrySimple with
      | ok r2 =>
        simp [generate_response, genFirstTry, genShortFallback, hgpt, hpr,
          hshort, hth, hr2, retryCount]
      | error e =>
        simp [generate_response, genFirstTry, genShortFallback, hgpt, hpr,
          hshort, hth, hr2, retryCount]
    · cases hr2 : o.retrySimple with
      | ok r2 =>
        simp [generate_response, genFirstTry, genShortFallback, hgpt, hpr,
          hshort, hth, hr2]
      | error e =>
        simp [generate_response, genFirstTry, genShortFallback, hgpt, hpr,
          hshort, hth, hr2]
    · intro hre
      simp [generate_response, genFirstTry, genShortFallback, hgpt, hpr,
        hshort, hth, hre]
    · intro r2 hre h2
      simp [generate_response, genFirstTry, genShortFallback, hgpt, hpr,
        hshort, hth, hre, h2]
  · intro hth
    constructor
    · simp [generate_response, genFirstTry, genShortFallback, hgpt, hpr,
        hshort, hth, retryCount]
    · simp [generate_response, genFirstTry, genShortFallback, hgpt, hpr,
        hshort, hth]

/-- C7 witness: both branches exercised at concrete settings and a
degenerate primary result. -/
theorem c7_single_retry_only_in_thinking_mode_witness :
    (pyContains (lowerL (GenSettings.ollama_model
        { enable_thinking := false, ollama_model := "llama3" }).data)
        (strL "gpt-oss") = false)
    ∧ ((false = true →
        retryCount (generate_response
          { enable_thinking := false, ollama_model := "llama3" }
          { gptOss := Except.error (), primary := Except.ok ""
            noFunc := Except.error (), retrySimple := Except.error () }).2 = 1
        ∧ GenCall.chatRetrySimple true ∈ (generate_response
            { enable_thinking := false, ollama_model := "llama3" }
            { gptOss := Except.error (), primary := Except.ok ""
              noFunc := Except.error (), retrySimple := Except.error () }).2
        ∧ ((Except.error () : Except Unit String) = Except.error () →
            (generate_response
              { enable_thinking := false, ollama_model := "llama3" }
              { gptOss := Except.error (), primary := Except.ok ""
                noFunc := Except.error (), retrySimple := Except.error () }).1
              = shortFallback)
        ∧ (∀ r2, (Except.error () : Except Unit String) = Except.ok r2 →
            tooShort (extract_final_response_data (pstrip r2.data)) = true →
            (generate_response
              { enable_thinking := false, ollama_model := "llama3" }
              { gptOss := Except.error (), primary := Except.ok ""
                noFunc := Except.error (), retrySimple := Except.error () }).1
              = shortFallback))
      ∧ (false = false →
        retryCount (generate_response
          { enable_thinking := false, ollama_model := "llama3" }
          { gptOss := Except.error (), primary := Except.ok ""
            noFunc := Except.error (), retrySimple := Except.error () }).2 = 0
        ∧ (generate_response
            { enable_thinking := false, ollama_model := "llama3" }
            { gptOss := Except.error (), primary := Except.ok ""
              noFunc := Except.error (), retrySimple := Except.error () }).1
            = shortFallback)) :=
  ⟨by decide,
   c7_single_retry_only_in_thinking_mode
     { enable_thinking := false, ollama_model := "llama3" }
     { gptOss := Except.error (), primary := Except.ok ""
       noFunc := Except.error (), retrySimple := Except.error () }
     "" (by decide) rfl (by decide)⟩

theorem toNat_ofNat_valid {n : Nat} (h : n.isValidChar) :
    (Char.ofNat n).toNat = n := by
  unfold Char.ofNat
  rw [dif_pos h]
  show (UInt32.mk (BitVec.ofNatLt n _)).toNat = n
  simp [UInt32.toNat, BitVec.toNat_ofNatLt]

theorem lowerC_eq_lt {c : Char} (h : lowerC c = '<') : c = '<' := by
  unfold lowerC Char.toLower at h
  by_cases hc : c.toNat ≥ 65 ∧ c.toNat ≤ 90
  · rw [if_pos hc] at h
    have h2 := congrArg Char.toNat h
    have h3 : (Char.ofNat (c.toNat + 32)).toNat = c.toNat + 32 :=
      toNat_ofNat_valid (Or.inl (by omega))
    rw [h3] at h2
    have h4 : ('<').toNat = 60 := rfl
    omega
  · rw [if_neg hc] at h
    exact h

theorem ciEq_lt_eq {c : Char} (h : ciEq '<' c = true) : c = '<' := by
  unfold ciEq at h
  exact lowerC_eq_lt (of_decide_eq_true h).symm

theorem eatCI_sfx : ∀ (pat l r : List Char), eatCI pat l = some r → r <:+ l := by
  intro pat
  induction pat with
  | nil => intro l r h; cases h; exact List.suffix_refl _
  | cons p ps ih =>
    intro l r h
    cases l with
    | nil => cases h
    | cons c cs =>
      unfold eatCI at h
      by_cases hc : ciEq p c = true
      · rw [if_pos hc] at h
        exact (ih cs r h).trans (List.suffix_cons c cs)
      · rw [if_neg hc] at h; cases h

theorem eatCS_sfx : ∀ (pat l r : List Char), eatCS pat l = some r → r <:+ l := by
  intro pat
  induction pat with
  | nil => intro l r h; cases h; exact List.suffix_refl _
  | cons p ps ih =>
    intro l r h
    cases l with
    | nil => cases h
    | cons c cs =>
      unfold eatCS at h
      by_cases hc : p = c
      · rw [if_pos hc] at h
        exact (ih cs r h).trans (List.suffix_cons c cs)
      · rw [if_neg hc] at h; cases h

theorem dropWs_sfx (l : List Char) : dropWs l <:+ l :=
  List.dropWhile_suffix pyWs

theorem ws1_sfx {l r : List Char} (h : ws1 l = some r) : r <:+ l := by
  cases l with
  | nil => cases h
  | cons c cs =>
    simp only [ws1] at h
    by_cases hc : pyWs c = true
    · rw [if_pos hc] at h
      cases h
      exact (List.dropWhile_suffix pyWs).trans (List.suffix_cons c cs)
    · rw [if_neg hc] at h; cases h

theorem optC_sfx (ch : Char) (l : List Char) : optC ch l <:+ l := by
  cases l with
  | nil => exact List.suffix_refl _
  | cons c cs =>
    simp only [optC]
    by_cases hc : c = ch
    · rw [if_pos hc]; exact List.suffix_cons c cs
    · rw [if_neg hc]

theorem dropWhile_pred_sfx (p : Char → Bool) {c : Char} {cs r : List Char}
    (h : cs.dropWhile p = r) : r <:+ c :: cs := by
  subst h
  exact (List.dropWhile_suffix p).trans (List.suffix_cons c cs)

theorem wordPlus_sfx {l r : List Char} (h : wordPlus l = some r) : r <:+ l := by
  cases l with
  | nil => cases h
  | cons c cs =>
    simp only [wordPlus] at h
    by_cases hc : isWordC c = true
    · rw [if_pos hc] at h; cases h; exact dropWhile_pred_sfx _ rfl
    · rw [if_neg hc] at h; cases h

theorem letterPlus_sfx {l r : List Char} (h : letterPlus l = some r) :
    r <:+ l := by
  cases l with
  | nil => cases h
  | cons c cs =>
    simp only [letterPlus] at h
    by_cases hc : c.isAlpha = true
    · rw [if_pos hc] at h; cases h; exact dropWhile_pred_sfx _ rfl
    · rw [if_neg hc] at h; cases h

theorem digitPlus_sfx {l r : List Char} (h : digitPlus l = some r) :
    r <:+ l := by
  cases l with
  | nil => cases h
  | cons c cs =>
    simp only [digitPlus] at h
    by_cases hc : c.isDigit = true
    · rw [if_pos hc] at h; cases h; exact dropWhile_pred_sfx _ rfl
    · rw [if_neg hc] at h; cases h

theorem eatAltsCI_sfx : ∀ (alts : List (List Char)) (l r : List Char),
    eatAltsCI alts l = some r → r <:+ l := by
  intro alts
  induction alts with
  | nil => intro l r h; cases h
  | cons a as_ ih =>
    intro l r h
    simp only [eatAltsCI] at h
    cases ha : eatCI a l with
    | some r2 => rw [ha] at h; cases h; exact eatCI_sfx a l r ha
    | none => rw [ha] at h; exact ih l r h

theorem lazyDotWsEnd_sfx : ∀ (l r : List Char),
    lazyDotWsEnd l = some r → r <:+ l := by
  intro l
  induction l with
  | nil => intro r h; cases h
  | cons c cs ih =>
    intro r h
    simp only [lazyDotWsEnd] at h
    split at h
    · split at h
      · cases h; exact List.nil_suffix
      · rename_i d ds
        split at h
        · cases h
          exact (List.suffix_cons d r).trans (List.suffix_cons c (d :: r))
        · exact (ih r h).trans (List.suffix_cons c (d :: ds))
    · exact (ih r h).trans (List.suffix_cons c cs)

theorem notDotPlusDot_sfx {l r : List Char} (h : notDotPlusDot l = some r) :
    r <:+ l := by
  cases l with
  | nil => cases h
  | cons c cs =>
    simp only [notDotPlusDot] at h
    split at h
    · cases h
    · split at h
      · rename_i d ds heq
        split at h
        · cases h
          have h1 : ((d :: r) : List Char) <:+ cs := by
            rw [← heq]; exact List.dropWhile_suffix _
          exact ((List.suffix_cons d r).trans h1).trans
            (List.suffix_cons c cs)
        · cases h
      · cases h

theorem findTagCI_sfx : ∀ (tag l r : List Char),
    findTagCI tag l = some r → r <:+ l := by
  intro tag l
  induction l with
  | nil => intro r h; cases h
  | cons c cs ih =>
    intro r h
    simp only [findTagCI] at h
    cases he : eatCI tag (c :: cs) with
    | some r2 => rw [he] at h; cases h; exact eatCI_sfx tag _ r he
    | none =>
      rw [he] at h
      exact (ih r h).trans (List.suffix_cons c cs)

theorem findTagCS_sfx : ∀ (tag l r : List Char),
    findTagCS tag l = some r → r <:+ l := by
  intro tag l
  induction l with
  | nil => intro r h; cases h
  | cons c cs ih =>
    intro r h
    simp only [findTagCS] at h
    cases he : eatCS tag (c :: cs) with
    | some r2 => rw [he] at h; cases h; exact eatCS_sfx tag _ r he
    | none =>
      rw [he] at h
      exact (ih r h).trans (List.suffix_cons c cs)

theorem rescanF_chars {m : List Char → Option (List Char × List Char)}
    (hm : MOk m) :
    ∀ (fuel : Nat) (l : List Char) (c : Char),
      c ∈ rescanF m fuel l → c ∈ l ∨ c = ' ' := by
  intro fuel
  induction fuel with
  | zero => intro l c h; exact Or.inl h
  | succ f ih =>
    intro l c h
    cases l with
    | nil => cases h
    | cons x xs =>
      simp only [rescanF] at h
      cases hmm : m (x :: xs) with
      | some pr =>
        obtain ⟨rep, rem⟩ := pr
        rw [hmm] at h
        rcases List.mem_append.mp h with h2 | h2
        · rcases (hm _ _ _ hmm).1 c h2 with h3 | h3
          · exact Or.inl h3
          · exact Or.inr h3
        · rcases ih rem c h2 with h3 | h3
          · exact Or.inl ((hm _ _ _ hmm).2 c h3)
          · exact Or.inr h3
      | none =>
        rw [hmm] at h
        rcases List.mem_cons.mp h with h2 | h2
        · exact Or.inl (h2 ▸ List.mem_cons_self x xs)
        · rcases ih xs c h2 with h3 | h3
          · exact Or.inl (List.mem_cons_of_mem x h3)
          · exact Or.inr h3

theorem sfx_mem {l r : List Char} (h : r <:+ l) :
    ∀ c ∈ r, c ∈ l :=
  fun _ hc => List.IsSuffix.mem hc h

theorem phraseFirstNeed_sfx {l r : List Char}
    (h : phraseFirstNeed l = some r) : r <:+ l := by
  simp only [phraseFirstNeed, bind, Option.bind_eq_some] at h
  obtain ⟨a, ha, b, hb, c, hc, hr⟩ := h
  exact (((notDotPlusDot_sfx hr).trans (eatCI_sfx _ _ _ hc)).trans
    ((ws1_sfx hb).trans (optC_sfx ',' a))).trans (eatCI_sfx _ _ _ ha)

theorem phraseTheUser_sfx {l r : List Char}
    (h : phraseTheUser l = some r) : r <:+ l := by
  simp only [phraseTheUser, bind, Option.bind_eq_some] at h
  obtain ⟨a, ha, b, hb, hr⟩ := h
  exact (((notDotPlusDot_sfx hr).trans (eatAltsCI_sfx _ _ _ hb)).trans
    (eatCI_sfx _ _ _ ha))

theorem phraseThey_sfx {l r : List Char}
    (h : phraseThey l = some r) : r <:+ l := by
  simp only [phraseThey, bind, Option.bind_eq_some] at h
  obtain ⟨a, ha, b, hb, hr⟩ := h
  exact (((notDotPlusDot_sfx hr).trans (eatAltsCI_sfx _ _ _ hb)).trans
    (eatCI_sfx _ _ _ ha))

theorem phraseINeed_sfx {l r : List Char}
    (h : phraseINeed l = some r) : r <:+ l := by
  simp only [phraseINeed, bind, Option.bind_eq_some] at h
  obtain ⟨a, ha, b, hb, hr⟩ := h
  exact (((notDotPlusDot_sfx hr).trans (eatAltsCI_sfx _ _ _ hb)).trans
    (eatCI_sfx _ _ _ ha))

theorem ratingCore_sfx {l r : List Char} (h : ratingCore l = some r) :
    r <:+ l := by
  simp only [ratingCore, bind, Option.bind_eq_some] at h
  obtain ⟨a, ha, b, hb, c, hc, hr⟩ := h
  cases h10 : eatCS (strL "/10") c with
  | some c2 =>
    rw [h10] at hr
    cases hr
    exact ((((dropWs_sfx _).trans (optC_sfx '.' _)).trans
      ((dropWs_sfx _).trans (eatCS_sfx _ _ _ h10))).trans
      ((digitPlus_sfx hc).trans (dropWs_sfx _))).trans
      ((eatCS_sfx _ _ _ hb).trans (eatAltsCI_sfx _ _ _ ha))
  | none =>
    rw [h10] at hr
    cases hr
    exact (((dropWs_sfx _).trans (optC_sfx '.' _)).trans
      ((dropWs_sfx _).trans ((digitPlus_sfx hc).trans (dropWs_sfx _)))).trans
      ((eatCS_sfx _ _ _ hb).trans (eatAltsCI_sfx _ _ _ ha))

theorem wsTrack_sfx : ∀ (l : List Char) (b : Bool), (wsTrack l b).2 <:+ l := by
  intro l
  induction l with
  | nil => intro b; exact List.nil_suffix
  | cons c cs ih =>
    intro b
    simp only [wsTrack]
    by_cases hc : pyWs c = true
    · rw [if_pos hc]
      exact (ih (c = '\n')).trans (List.suffix_cons c cs)
    · rw [if_neg hc]

theorem chainLineStart_sfx {core : List Char → Option (List Char)}
    (hcore : SfxFn core) :
    ∀ (fuel : Nat) (l r : List Char),
      chainLineStart core fuel l = some r → r <:+ l := by
  intro fuel
  induction fuel with
  | zero => intro l r h; cases h
  | succ f ih =>
    intro l r h
    simp only [chainLineStart, bind, Option.bind_eq_some] at h
    obtain ⟨a, ha, h2⟩ := h
    have hsa : a <:+ l := hcore l a ha
    have hs2 : (wsTrack a false).2 <:+ l := (wsTrack_sfx a false).trans hsa
    by_cases hnl : (wsTrack a false).1 = true
    · rw [if_pos hnl] at h2
      cases hch : chainLineStart core f (wsTrack a false).2 with
      | some r3 =>
        rw [hch] at h2
        cases h2
        exact (ih _ _ hch).trans hs2
      | none =>
        rw [hch] at h2
        cases h2
        exact hs2
    · rw [if_neg hnl] at h2
      cases h2
      exact hs2

theorem hashCore_sfx : SfxFn hashCore := by
  intro l r h
  cases l with
  | nil => cases h
  | cons c cs =>
    simp only [hashCore] at h
    split at h
    · cases h; exact dropWhile_pred_sfx _ rfl
    · cases h

theorem numListCore_sfx : SfxFn numListCore := by
  intro l r h
  simp only [numListCore, bind, Option.bind_eq_some] at h
  obtain ⟨a, ha, hr⟩ := h
  exact (eatCS_sfx _ _ _ hr).trans (digitPlus_sfx ha)

theorem dashCore_sfx : SfxFn dashCore := by
  intro l r h
  cases l with
  | nil => cases h
  | cons c cs =>
    simp only [dashCore] at h
    split at h
    · cases h; exact List.suffix_cons c r
    · cases h

theorem findStarStar_chars : ∀ (l inn aft : List Char),
    findStarStar l = some (inn, aft) →
    (∀ c ∈ inn, c ∈ l) ∧ aft <:+ l := by
  intro l
  induction l with
  | nil => intro inn aft h; cases h
  | cons c cs ih =>
    intro inn aft h
    cases he : eatCS (strL "**") (c :: cs) with
    | some rest =>
      simp only [findStarStar, he, Option.some.injEq, Prod.mk.injEq] at h
      obtain ⟨h1, h2⟩ := h
      subst h1; subst h2
      exact ⟨fun x hx => absurd hx (List.not_mem_nil x), eatCS_sfx _ _ _ he⟩
    | none =>
      by_cases hc : c = '\n'
      · subst hc
        simp [findStarStar, he] at h
      · cases hf : findStarStar cs with
        | some pr =>
          obtain ⟨inn2, aft2⟩ := pr
          simp only [findStarStar, he, hc, hf, if_false, if_neg,
            Option.some.injEq, Prod.mk.injEq] at h
          obtain ⟨h1, h2⟩ := h
          subst h1; subst h2
          obtain ⟨h1, h2⟩ := ih inn2 aft2 hf
          refine ⟨?_, h2.trans (List.suffix_cons c cs)⟩
          intro x hx
          rcases List.mem_cons.mp hx with hx | hx
          · exact hx ▸ List.mem_cons_self c cs
          · exact List.mem_cons_of_mem c (h1 x hx)
        | none => simp [findStarStar, he, hc, hf] at h

theorem MOk_matchThinkCI : MOk matchThinkCI := by
  intro l rep rem h
  cases ho : eatCI (strL "<think>") l with
  | none => simp [matchThinkCI, ho] at h
  | some afterOpen =>
    cases hc : findTagCI (strL "</think>") afterOpen with
    | none => simp [matchThinkCI, ho, hc] at h
    | some afterClose =>
      simp only [matchThinkCI, ho, hc, Option.some.injEq, Prod.mk.injEq] at h
      obtain ⟨h1, h2⟩ := h
      subst h1; subst h2
      refine ⟨fun c hc2 => absurd hc2 (List.not_mem_nil c), ?_⟩
      exact sfx_mem (((dropWs_sfx _).trans
        (findTagCI_sfx _ _ _ hc)).trans (eatCI_sfx _ _ _ ho))

theorem MOk_matchThinkingCI : MOk matchThinkingCI := by
  intro l rep rem h
  cases ho : eatCI (strL "<thinking>") l with
  | none => simp [matchThinkingCI, ho] at h
  | some afterOpen =>
    cases hc : findTagCI (strL "</thinking>") afterOpen with
    | none => simp [matchThinkingCI, ho, hc] at h
    | some afterClose =>
      simp only [matchThinkingCI, ho, hc, Option.some.injEq, Prod.mk.injEq] at h
      obtain ⟨h1, h2⟩ := h
      subst h1; subst h2
      refine ⟨fun c hc2 => absurd hc2 (List.not_mem_nil c), ?_⟩
      exact sfx_mem (((dropWs_sfx _).trans
        (findTagCI_sfx _ _ _ hc)).trans (eatCI_sfx _ _ _ ho))

theorem MOk_matchThinkCS : MOk matchThinkCS := by
  intro l rep rem h
  cases ho : eatCS (strL "<think>") l with
  | none => simp [matchThinkCS, ho] at h
  | some afterOpen =>
    cases hc : findTagCS (strL "</think>") afterOpen with
    | none => simp [matchThinkCS, ho, hc] at h
    | some afterClose =>
      simp only [matchThinkCS, ho, hc, Option.some.injEq, Prod.mk.injEq] at h
      obtain ⟨h1, h2⟩ := h
      subst h1; subst h2
      refine ⟨fun c hc2 => absurd hc2 (List.not_mem_nil c), ?_⟩
      exact sfx_mem (((dropWs_sfx _).trans
        (findTagCS_sfx _ _ _ hc)).trans (eatCS_sfx _ _ _ ho))

theorem MOk_dotPhrase {body : List Char → Option (List Char)}
    (hbody : SfxFn body) : MOk (dotPhraseMatcher body) := by
  intro l rep rem h
  cases l with
  | nil => cases h
  | cons c cs =>
    simp only [dotPhraseMatcher] at h
    split at h
    · simp only [bind, Option.bind_eq_some] at h
      obtain ⟨a, ha, b, hb, hpure⟩ := h
      cases hpure
      refine ⟨fun x hx => absurd hx (List.not_mem_nil x), ?_⟩
      exact sfx_mem (((hbody _ _ hb).trans (ws1_sfx ha)).trans
        (List.suffix_cons c cs))
    · cases h

theorem MOk_mFence (openTag : List Char) : MOk (mFence openTag) := by
  intro l rep rem h
  simp only [mFence, bind, Option.bind_eq_some] at h
  obtain ⟨a, ha, b, hb, hpure⟩ := h
  cases hpure
  refine ⟨fun x hx => absurd hx (List.not_mem_nil x), ?_⟩
  exact sfx_mem ((findTagCS_sfx _ _ _ hb).trans (eatCS_sfx _ _ _ ha))

theorem MOk_mRating : MOk mRating := by
  intro l rep rem h
  cases hw : eatAltsCI [strL "Career ", strL "Love ", strL "Health ",
      strL "Wealth "] l with
  | some a =>
    cases hrc : ratingCore a with
    | some r2 =>
      simp only [mRating, hw, hrc, Option.map_some', Option.some.injEq,
        Prod.mk.injEq] at h
      obtain ⟨h1, h2⟩ := h
      subst h1; subst h2
      refine ⟨fun x hx => absurd hx (List.not_mem_nil x), ?_⟩
      exact sfx_mem ((ratingCore_sfx hrc).trans (eatAltsCI_sfx _ _ _ hw))
    | none => simp [mRating, hw, hrc] at h
  | none =>
    cases hrc : ratingCore l with
    | some r2 =>
      simp only [mRating, hw, hrc, Option.map_some', Option.some.injEq,
        Prod.mk.injEq] at h
      obtain ⟨h1, h2⟩ := h
      subst h1; subst h2
      refine ⟨fun x hx => absurd hx (List.not_mem_nil x), ?_⟩
      exact sfx_mem (ratingCore_sfx hrc)
    | none => simp [mRating, hw, hrc] at h

theorem MOk_mSlashTen : MOk mSlashTen := by
  intro l rep rem h
  simp only [mSlashTen, bind, Option.bind_eq_some] at h
  obtain ⟨a, ha, b, hb, c, hc, hpure⟩ := h
  cases hpure
  refine ⟨?_, ?_⟩
  · intro x hx
    rcases List.mem_singleton.mp hx with rfl
    exact Or.inr rfl
  · exact sfx_mem ((((dropWs_sfx _).trans (optC_sfx '.' _)).trans
      ((dropWs_sfx _).trans (eatCS_sfx _ _ _ hc))).trans
      ((digitPlus_sfx hb).trans (ws1_sfx ha)))

theorem MOk_mParenScore (kw : List Char) : MOk (mParenScore kw) := by
  intro l rep rem h
  simp only [mParenScore, bind, Option.bind_eq_some] at h
  obtain ⟨a, ha, b, hb, c, hc, hpure⟩ := h
  cases hpure
  refine ⟨fun x hx => absurd hx (List.not_mem_nil x), ?_⟩
  exact sfx_mem ((eatCS_sfx _ _ _ hc).trans
    ((digitPlus_sfx hb).trans ((dropWs_sfx _).trans (eatCI_sfx _ _ _ ha))))

theorem MOk_mMultilineBlock (openC closeC : Char) :
    MOk (mMultilineBlock openC closeC) := by
  intro l rep rem h
  cases l with
  | nil => cases h
  | cons c cs =>
    simp only [mMultilineBlock] at h
    split at h
    · split at h
      · cases h
        refine ⟨fun x hx => absurd hx (List.not_mem_nil x), ?_⟩
        exact sfx_mem ((List.tail_suffix _).trans
          ((List.dropWhile_suffix _).trans (List.suffix_cons c cs)))
      · cases h
    · cases h

theorem MOk_mBold : MOk mBold := by
  intro l rep rem h
  simp only [mBold, bind, Option.bind_eq_some] at h
  obtain ⟨a, ha, hf⟩ := h
  obtain ⟨h1, h2⟩ := findStarStar_chars a rep rem hf
  have hsa : a <:+ l := eatCS_sfx _ _ _ ha
  exact ⟨fun x hx => Or.inl (List.IsSuffix.mem (h1 x hx) hsa),
    sfx_mem (h2.trans hsa)⟩

theorem MOk_mItalic : MOk mItalic := by
  intro l rep rem h
  cases l with
  | nil => cases h
  | cons c cs =>
    simp only [mItalic] at h
    split at h
    · split at h
      · cases h
        constructor
        · intro x hx
          exact Or.inl (List.mem_cons_of_mem c
            (( List.takeWhile_prefix _).sublist.mem hx))
        · exact sfx_mem ((List.tail_suffix _).trans
            ((List.dropWhile_suffix _).trans (List.suffix_cons c cs)))
      · cases h
    · cases h

theorem MOk_mInlineCode : MOk mInlineCode := by
  intro l rep rem h
  cases l with
  | nil => cases h
  | cons c cs =>
    simp only [mInlineCode] at h
    split at h
    · split at h
      · cases h
        constructor
        · intro x hx
          exact Or.inl (List.mem_cons_of_mem c
            (( List.takeWhile_prefix _).sublist.mem hx))
        · exact sfx_mem ((List.tail_suffix _).trans
            ((List.dropWhile_suffix _).trans (List.suffix_cons c cs)))
      · cases h
    · cases h

theorem MOk_mLineStart {core : List Char → Option (List Char)}
    (hcore : SfxFn core) : MOk (mLineStart core) := by
  intro l rep rem h
  cases l with
  | nil => cases h
  | cons c cs =>
    by_cases hc : c = '\n'
    · cases hch : chainLineStart core cs.length cs with
      | some r2 =>
        simp only [mLineStart, hc, hch, if_pos, if_true, Option.map_some',
          Option.some.injEq, Prod.mk.injEq] at h
        obtain ⟨h1, h2⟩ := h
        subst h1; subst h2
        constructor
        · intro x hx
          rcases List.mem_singleton.mp hx with rfl
          exact Or.inl (hc ▸ List.mem_cons_self c cs)
        · exact fun x hx => List.mem_cons_of_mem c
            (List.IsSuffix.mem hx (chainLineStart_sfx hcore _ _ _ hch))
      | none => simp [mLineStart, hc, hch] at h
    · simp [mLineStart, hc] at h

theorem MOk_mBlankLines : MOk mBlankLines := by
  intro l rep rem h
  cases l with
  | nil => cases h
  | cons c cs =>
    simp only [mBlankLines] at h
    split at h
    · rename_i hc
      split at h
      · cases h
      · cases h
        constructor
        · intro x hx
          rcases List.mem_singleton.mp hx with rfl
          exact Or.inl (hc ▸ List.mem_cons_self c cs)
        · intro x hx
          rcases List.mem_append.mp hx with hx | hx
          · have h1 := List.mem_reverse.mp hx
            have h2 := ( List.takeWhile_prefix _).sublist.mem h1
            have h3 := List.mem_reverse.mp h2
            exact List.mem_cons_of_mem c
              (( List.takeWhile_prefix pyWs).sublist.mem h3)
          · exact List.mem_cons_of_mem c
              (List.IsSuffix.mem hx (List.drop_suffix _ _))
    · cases h

theorem MOk_mSpaces : MOk mSpaces := by
  intro l rep rem h
  cases l with
  | nil => cases h
  | cons c cs =>
    by_cases hc : c = ' '
    · simp only [mSpaces, hc, if_pos, if_true, Option.some.injEq,
        Prod.mk.injEq] at h
      obtain ⟨h1, h2⟩ := h
      subst h1; subst h2
      constructor
      · intro x hx
        rcases List.mem_singleton.mp hx with rfl
        exact Or.inr rfl
      · exact fun x hx => List.mem_cons_of_mem c
          (List.IsSuffix.mem hx (List.dropWhile_suffix _))
    · simp [mSpaces, hc] at h

theorem mDepart_sfx : SfxFn mDepart := by
  intro l r h
  simp only [mDepart, bind, Option.bind_eq_some] at h
  obtain ⟨a, ha, h2⟩ := h
  cases a with
  | nil => cases h2
  | cons c cs =>
    split at h2
    · rename_i c2 cs2 heq
      obtain ⟨rfl, rfl⟩ : c = c2 ∧ cs = cs2 := by
        injection heq with e1 e2; exact ⟨e1, e2⟩
      split at h2
      · simp only [bind, Option.bind_eq_some, Option.pure_def,
          Option.some.injEq] at h2
        obtain ⟨b, hb, hp⟩ := h2
        subst hp
        exact ((dropWs_sfx b).trans ((wordPlus_sfx hb).trans
          (List.suffix_cons c cs))).trans (eatCS_sfx _ _ _ ha)
      · cases h2
    · rename_i heq
      simp at heq

theorem mStarterLets_sfx : SfxFn mStarterLets := by
  intro l r h
  simp only [mStarterLets, bind, Option.bind_eq_some] at h
  obtain ⟨a, ha, b, hb, c, hc, d, hd, hr⟩ := h
  exact ((((lazyDotWsEnd_sfx _ _ hr).trans
    ((eatCI_sfx _ _ _ hd).trans (optC_sfx apoC c))).trans
    (eatCI_sfx _ _ _ hc)).trans
    ((ws1_sfx hb).trans (optC_sfx ',' a))).trans (eatAltsCI_sfx _ _ _ ha)

theorem mWordLets_sfx : SfxFn mWordLets := by
  intro l r h
  cases l with
  | nil => cases h
  | cons c cs =>
    simp only [mWordLets] at h
    split at h
    · simp only [bind, Option.bind_eq_some] at h
      obtain ⟨a, ha, b, hb, c2, hc2, d, hd, e, he, f, hf, hr⟩ := h
      have s1 := lazyDotWsEnd_sfx _ _ hr
      have s2 := s1.trans (eatAltsCI_sfx _ _ _ hf)
      have s3 := s2.trans (eatCS_sfx _ _ _ he)
      have s4 := s3.trans ((eatCI_sfx _ _ _ hd).trans (optC_sfx apoC c2))
      have s5 := s4.trans (eatCI_sfx _ _ _ hc2)
      have s6 := s5.trans ((ws1_sfx hb).trans (optC_sfx ',' a))
      have s7 := s6.trans (letterPlus_sfx ha)
      exact s7.trans (List.suffix_cons c cs)
    · cases h

theorem phrase_keep {body : List Char → Option (List Char)}
    (hbody : SfxFn body) {l : List Char} (h : '<' ∉ l) :
    '<' ∉ applyAnchored body l := by
  unfold applyAnchored
  cases hml : body l with
  | none => simpa using h
  | some r =>
    simp only [Option.getD_some]
    intro hmem
    exact h (List.IsSuffix.mem hmem (hbody l r hml))

theorem rescan_keep {m : List Char → Option (List Char × List Char)}
    (hm : MOk m) {l : List Char} (h : '<' ∉ l) : '<' ∉ rescan m l := by
  intro hmem
  rcases rescanF_chars hm l.length l '<' hmem with h2 | h2
  · exact h h2
  · exact absurd h2 (by decide)

theorem pstrip_mem {l : List Char} {c : Char} (h : c ∈ pstrip l) : c ∈ l := by
  unfold pstrip at h
  have h1 := List.mem_reverse.mp h
  have h2 := (List.dropWhile_suffix pyWs).sublist.mem h1
  have h3 := List.mem_reverse.mp h2
  exact (List.dropWhile_suffix pyWs).sublist.mem h3

theorem pstrip_keep {l : List Char} (h : '<' ∉ l) : '<' ∉ pstrip l :=
  fun hmem => h (pstrip_mem hmem)

theorem sentencePass_keep {body : List Char → Option (List Char)}
    (hbody : SfxFn body) {l : List Char} (h : '<' ∉ l) :
    '<' ∉ sentencePass body l :=
  rescan_keep (MOk_dotPhrase hbody) (phrase_keep hbody h)

theorem lineStartPass_keep {core : List Char → Option (List Char)}
    (hcore : SfxFn core) {l : List Char} (h : '<' ∉ l) :
    '<' ∉ lineStartPass core l :=
  rescan_keep (MOk_mLineStart hcore)
    (phrase_keep (fun l2 r2 h2 => chainLineStart_sfx hcore _ l2 r2 h2) h)

theorem eatCI_self : ∀ (pat rest : List Char),
    eatCI pat (pat ++ rest) = some rest := by
  intro pat
  induction pat with
  | nil => intro rest; rfl
  | cons p ps ih =>
    intro rest
    simp only [List.cons_append, eatCI]
    rw [if_pos (by simp [ciEq])]
    exact ih rest

theorem eatCI_head_ne {tag : List Char} {t c : Char} {ts cs : List Char}
    (htag : tag = t :: ts) (hne : ciEq t c = false) :
    eatCI tag (c :: cs) = none := by
  subst htag
  simp only [eatCI]
  rw [if_neg (by simp [hne])]

theorem ciEq_lt_false {c : Char} (hne : c ≠ '<') : ciEq '<' c = false := by
  by_cases h : ciEq '<' c = true
  · exact absurd (ciEq_lt_eq h) hne
  · simpa using h

theorem findTagCI_self (t : Char) (ts rest : List Char) :
    findTagCI (t :: ts) ((t :: ts) ++ rest) = some rest := by
  rw [List.cons_append]
  simp only [findTagCI]
  have h := eatCI_self (t :: ts) rest
  rw [List.cons_append] at h
  rw [h]

theorem findTagCI_through : ∀ (b rest : List Char), '<' ∉ b →
    findTagCI (strL "</think>") (b ++ (strL "</think>" ++ rest)) = some rest := by
  intro b
  induction b with
  | nil =>
    intro rest _
    rw [List.nil_append]
    exact findTagCI_self '<' (strL "/think>") rest
  | cons c b' ih =>
    intro rest hb
    have hcne : c ≠ '<' := fun hc => hb (hc ▸ List.mem_cons_self c b')
    rw [List.cons_append]
    simp only [findTagCI]
    rw [eatCI_head_ne (rfl : strL "</think>" = '<' :: strL "/think>")
      (ciEq_lt_false hcne)]
    exact ih rest (fun hm => hb (List.mem_cons_of_mem c hm))

theorem matchThinkCI_block {b rest : List Char} (hb : '<' ∉ b) :
    matchThinkCI (strL "<think>" ++ (b ++ (strL "</think>" ++ rest)))
      = some ([], dropWs rest) := by
  simp only [matchThinkCI, eatCI_self, findTagCI_through b rest hb]

theorem matchThinkCI_cons_ne {c : Char} {cs : List Char} (hne : c ≠ '<') :
    matchThinkCI (c :: cs) = none := by
  unfold matchThinkCI
  rw [eatCI_head_ne (rfl : strL "<think>" = '<' :: strL "think>")
    (ciEq_lt_false hne)]

theorem WFThink_dropWs {l : List Char} (h : WFThink l) :
    WFThink (dropWs l) := by
  induction h with
  | nil => exact WFThink.nil
  | cons hne htail ih =>
    rename_i c l2
    unfold dropWs
    rw [List.dropWhile_cons]
    by_cases hws : pyWs c = true
    · rw [if_pos hws]; exact ih
    · rw [if_neg hws]; exact WFThink.cons hne htail
  | block hb htail ih =>
    rename_i b l2
    show WFThink (List.dropWhile pyWs
      (strL "<think>" ++ (b ++ (strL "</think>" ++ l2))))
    rw [show strL "<think>" ++ (b ++ (strL "</think>" ++ l2))
        = '<' :: (strL "think>" ++ (b ++ (strL "</think>" ++ l2))) from rfl]
    rw [List.dropWhile_cons]
    rw [if_neg (by decide)]
    exact WFThink.block hb htail

theorem stripThink_wf : ∀ (fuel : Nat) (l : List Char), WFThink l →
    l.length ≤ fuel → '<' ∉ rescanF matchThinkCI fuel l := by
  intro fuel
  induction fuel with
  | zero =>
    intro l hwf hlen
    have : l = [] := List.eq_nil_of_length_eq_zero (by omega)
    subst this
    simp [rescanF]
  | succ f ih =>
    intro l hwf hlen
    cases hwf with
    | nil => simp [rescanF]
    | cons hne htail =>
      rename_i c l2
      simp only [rescanF]
      rw [matchThinkCI_cons_ne hne]
      intro hmem
      rcases List.mem_cons.mp hmem with h2 | h2
      · exact hne h2.symm
      · exact ih l2 htail (by simp at hlen; omega) h2
    | block hb htail =>
      rename_i b l2
      have heq : rescanF matchThinkCI (f + 1)
          (strL "<think>" ++ (b ++ (strL "</think>" ++ l2)))
          = rescanF matchThinkCI f (dropWs l2) := by
        rw [show strL "<think>" ++ (b ++ (strL "</think>" ++ l2))
            = '<' :: (strL "think>" ++ (b ++ (strL "</think>" ++ l2))) from rfl]
        simp only [rescanF]
        rw [show ('<' :: (strL "think>" ++ (b ++ (strL "</think>" ++ l2))))
            = strL "<think>" ++ (b ++ (strL "</think>" ++ l2)) from rfl]
        rw [matchThinkCI_block hb]
        simp
      rw [heq]
      apply ih (dropWs l2) (WFThink_dropWs htail)
      have hd : (dropWs l2).length ≤ l2.length :=
        (List.dropWhile_suffix pyWs).sublist.length_le
      have hl : (strL "<think>" ++ (b ++ (strL "</think>" ++ l2))).length
          = 15 + b.length + l2.length := by
        simp [List.length_append, strL]
        omega
      omega

/-- Pass-by-pass propagation: a well-formed model output loses every
matched think block in the first extraction pass, and no later pass of
`_extract_final_response` can introduce a `<`. -/
theorem extract_final_response_noLt {l : List Char} (hwf : WFThink l) :
    '<' ∉ extract_final_response_data l := by
  unfold extract_final_response_data
  by_cases h0 : l = []
  · rw [if_pos h0]; simp
  · rw [if_neg h0]
    have h1 : '<' ∉ rescan matchThinkCI l :=
      stripThink_wf l.length l hwf (le_refl _)
    have h2 := rescan_keep MOk_matchThinkingCI h1
    have h3 := phrase_keep mDepart_sfx h2
    have h4 := phrase_keep mStarterLets_sfx h3
    have h5 := phrase_keep mWordLets_sfx h4
    have h6 := sentencePass_keep (fun _ _ h => phraseFirstNeed_sfx h) h5
    have h7 := sentencePass_keep (fun _ _ h => phraseTheUser_sfx h) h6
    have h8 := sentencePass_keep (fun _ _ h => phraseThey_sfx h) h7
    have h9 := sentencePass_keep (fun _ _ h => phraseINeed_sfx h) h8
    have h10 := rescan_keep (MOk_mFence (strL "```json")) h9
    have h11 := rescan_keep (MOk_mFence (strL "```")) h10
    have h12 := rescan_keep MOk_mRating h11
    have h13 := rescan_keep MOk_mSlashTen h12
    have h14 := rescan_keep (MOk_mParenScore (strL "(score:")) h13
    have h15 := rescan_keep (MOk_mParenScore (strL "(rating:")) h14
    have h16 := rescan_keep (MOk_mMultilineBlock lbrace rbrace) h15
    have h17 := rescan_keep (MOk_mMultilineBlock '[' ']') h16
    have h18 := rescan_keep MOk_mBold h17
    have h19 := rescan_keep MOk_mItalic h18
    have h20 := rescan_keep MOk_mInlineCode h19
    have h21 := lineStartPass_keep hashCore_sfx h20
    have h22 := lineStartPass_keep numListCore_sfx h21
    have h23 := lineStartPass_keep dashCore_sfx h22
    have h24 := rescan_keep MOk_mBlankLines h23
    have h25 := rescan_keep MOk_mSpaces h24
    exact pstrip_keep h25

theorem workerCleanL_keep {l : List Char} (h : '<' ∉ l) :
    '<' ∉ workerCleanL l :=
  pstrip_keep (rescan_keep MOk_matchThinkCS h)

theorem WFThink_of_noLt : ∀ {l : List Char}, '<' ∉ l → WFThink l := by
  intro l
  induction l with
  | nil => intro _; exact WFThink.nil
  | cons c cs ih =>
    intro h
    exact WFThink.cons (fun hc => h (hc ▸ List.mem_cons_self c cs))
      (ih (fun hm => h (List.mem_cons_of_mem c hm)))

/-- C5 amended: the post-processing (the extraction pass plus the
worker's defence-in-depth cleanup) removes every *matched*
internal-deliberation block: for any model output in which the
delimiters occur only as complete `<think> ... </think>` pairs, the
processed reply contains neither delimiter substring.  (An unmatched
delimiter, by contrast, can survive — see the counterexample.) -/
theorem c5_matched_blocks_removed (s : String) (hwf : WFThink s.data) :
    ¬ (strL "<think>" <:+: (workerClean (extract_final_response s)).data)
    ∧ ¬ (strL "</think>" <:+: (workerClean (extract_final_response s)).data) := by
  have h1 : '<' ∉ extract_final_response_data s.data :=
    extract_final_response_noLt hwf
  have h2 : '<' ∉ workerCleanL (extract_final_response_data s.data) :=
    workerCleanL_keep h1
  have hdata : (workerClean (extract_final_response s)).data
      = workerCleanL (extract_final_response_data s.data) := rfl
  constructor <;>
    (intro hinf
     rw [hdata] at hinf
     exact h2 (hinf.sublist.mem (by decide)))

/-- C5 witness: a concrete output with one matched block followed by
visible text. -/
theorem c5_matched_blocks_removed_witness :
    WFThink (String.data "<think>plan the reply here</think> Hey, a lovely day awaits you today.")
    ∧ (¬ (strL "<think>" <:+: (workerClean (extract_final_response
        "<think>plan the reply here</think> Hey, a lovely day awaits you today.")).data)
      ∧ ¬ (strL "</think>" <:+: (workerClean (extract_final_response
        "<think>plan the reply here</think> Hey, a lovely day awaits you today.")).data)) := by
  have hwf : WFThink (String.data "<think>plan the reply here</think> Hey, a lovely day awaits you today.") := by
    rw [show String.data "<think>plan the reply here</think> Hey, a lovely day awaits you today."
        = strL "<think>" ++ (strL "plan the reply here"
          ++ (strL "</think>" ++ strL " Hey, a lovely day awaits you today.")) from rfl]
    exact WFThink.block (by decide) (WFThink_of_noLt (by decide))
  exact ⟨hwf, c5_matched_blocks_removed _ hwf⟩

/-- C5 counterexample: an unmatched `<think>` delimiter survives the
extraction pass and the worker cleanup, so the claim quantified over
*every* model output is false on the code. -/
theorem c5_unmatched_delimiter_survives :
    pyContains (workerClean (extract_final_response "a <think> b")).data
      (strL "<think>") = true := by
  decide

end AstroBot
